import Mathlib

/-!
Verification development for the MetabolicSuite constraint-based
flux-analysis core (`metabolicsuite/api.py`, `metabolicsuite/benchmark.py`).

Python strings are modelled as `List Char`, Python floats as `ℚ` (every
float produced or consumed by the modelled code is an exact decimal, and
`str`/`float` round-trip exactly on such values).  Recursion that is a
`while` loop or unbounded recursion in the source is modelled with an
explicit fuel parameter; a result of `none` means the computation does not
return within any budget (non-termination).  Fallible external calls are
modelled with `Except`/`Option` oracles.
-/

abbrev Str := List Char

abbrev GeneMap := List (Str × ℚ)

/-- Python `str.strip` whitespace test (ASCII subset used by the source). -/
def isPySpace (c : Char) : Bool := c = ' ' || c = '\t' || c = '\n' || c = '\r'

/-- Python `str.strip`: drop leading and trailing whitespace. -/
def pyStrip (l : Str) : Str :=
  ((l.dropWhile isPySpace).reverse.dropWhile isPySpace).reverse

/-- Python `str.lower` on one character (ASCII letters, as used by GPR rules). -/
def lowerChar (c : Char) : Char :=
  if 65 ≤ c.toNat ∧ c.toNat ≤ 90 then Char.ofNat (c.toNat + 32) else c

/-- Python `str.lower` (ASCII). -/
def pyLower (l : Str) : Str := l.map lowerChar

/-- Python substring containment `sep in l`. -/
def containsSub (sep : Str) : Str → Bool
  | [] => sep.isEmpty
  | c :: rest => sep.isPrefixOf (c :: rest) || containsSub sep rest

/-- Worker for `pySplit`; the fuel argument is only a structural bound and
`pySplit` supplies enough of it for the whole input. -/
def splitGo (sep : Str) : Nat → Str → Str → List Str
  | 0, rest, acc => [acc.reverse ++ rest]
  | _n + 1, [], acc => [acc.reverse]
  | n + 1, c :: rest, acc =>
    if sep.isPrefixOf (c :: rest) then
      acc.reverse :: splitGo sep n ((c :: rest).drop sep.length) []
    else
      splitGo sep n rest (c :: acc)

/-- Python `l.split(sep)` for a non-empty separator: split on every
non-overlapping occurrence, left to right. -/
def pySplit (sep l : Str) : List Str := splitGo sep (l.length + 1) l []

/-- Index of the last occurrence of `c` (Python `str.rfind`), `none` if absent. -/
def lastIdxAux (c : Char) : Str → Option Nat
  | [] => none
  | x :: xs =>
    match lastIdxAux c xs with
    | some i => some (i + 1)
    | none => if x = c then some 0 else none

/-- Index of the first occurrence of `c` (Python `str.find`), `none` if absent. -/
def firstIdxAux (c : Char) : Str → Option Nat
  | [] => none
  | x :: xs => if x = c then some 0 else (firstIdxAux c xs).map (· + 1)

/-- Python `l.find(c, start)`: first occurrence at index ≥ `start`, `none`
standing for Python's -1. -/
def firstIdxFrom (c : Char) (start : Nat) (l : Str) : Option Nat :=
  (firstIdxAux c (l.drop start)).map (· + start)

def isDigit (c : Char) : Bool := 48 ≤ c.toNat && c.toNat ≤ 57

def allDigits (l : Str) : Bool := l.all isDigit

/-- Numeric value of a digit string (most significant first). -/
def digitsVal (l : Str) : ℚ := l.foldl (fun a c => a * 10 + ((c.toNat : ℚ) - 48)) 0

/-- Python `float(s)` restricted to the decimal forms the modelled code can
produce or meet in a GPR rule: optional sign, digits with an optional single
decimal point.  (Exponent forms and the `inf`/`nan` spellings accepted by
Python are not modelled; no modelled input uses them.) -/
def pyFloat (e0 : Str) : Option ℚ :=
  let e := pyStrip e0
  let sgn : ℚ := if e.head? = some '-' then -1 else 1
  let e := if e.head? = some '-' ∨ e.head? = some '+' then e.tail else e
  match firstIdxAux '.' e with
  | none => if e ≠ [] ∧ allDigits e then some (sgn * digitsVal e) else none
  | some i =>
    let ip := e.take i
    let fp := e.drop (i + 1)
    if (ip ≠ [] ∨ fp ≠ []) ∧ allDigits ip ∧ allDigits fp then
      some (sgn * (digitsVal ip + digitsVal fp / 10 ^ fp.length))
    else none

/-- Exponent `k ≥ 1` such that `q * 10^k` is an integer, used to render `q`
as an exact decimal (every value handled by the source is such a decimal
because Python floats are dyadic rationals); a fallback of 17 digits,
mirroring float precision, keeps the definition total. -/
def findPow (q : ℚ) : Nat :=
  ((((List.range 40).map (· + 1)).find? (fun k => (q * 10 ^ k).den == 1)).getD 17)

/-- Python `str(x)` for the floats the evaluator substitutes back into the
rule text: an exact decimal with at least one fractional digit (`str(1.0)`
is `"1.0"`, `str(0.2)` is `"0.2"`). -/
def ratToStr (q : ℚ) : Str :=
  let k := findPow q
  let mag := (q * 10 ^ k).floor.natAbs
  let ds := Nat.toDigits 10 mag
  let ds := if ds.length ≤ k then List.replicate (k + 1 - ds.length) '0' ++ ds else ds
  (if q < 0 then ['-'] else []) ++ ds.take (ds.length - k) ++ '.' :: ds.drop (ds.length - k)

/-- Python `max(values)` over a list of floats (`none` for the empty list,
where Python raises). -/
def pyMax : List ℚ → Option ℚ
  | [] => none
  | x :: xs => some (xs.foldl max x)

/-- Python `min(values)` over a list of floats. -/
def pyMin : List ℚ → Option ℚ
  | [] => none
  | x :: xs => some (xs.foldl min x)

/-- Python `dict.get` on a gene-expression map (first matching key). -/
def lookupMap : GeneMap → Str → Option ℚ
  | [], _ => none
  | (k, v) :: t, key => if k = key then some v else lookupMap t key

/-- `get_gene_expr` from `evaluate_gpr_expression` (api.py line 803):
`expression.get(gene_id.strip(), 1.0)`. -/
def get_gene_expr (expression : GeneMap) (gene_id : Str) : ℚ :=
  (lookupMap expression (pyStrip gene_id)).getD 1

/-- The token `" or "` split on by the evaluator. -/
def orTok : Str := " or ".toList

/-- The token `" and "` split on by the evaluator. -/
def andTok : Str := " and ".toList

mutual

/-- The inner `evaluate` closure of `evaluate_gpr_expression`
(api.py lines 806-834), with explicit fuel.  One step: strip; while a `(`
is present, recursively evaluate the innermost parenthesised segment
(after the last `(`, up to the next `)`) and splice `str(result)` back into
the text — when no `)` follows, Python's `find` returns -1 and the slice
arithmetic `expr[start+1:-1]` / `expr[end+1:]` yields the second branch;
then on the paren-free text: if `" or "` occurs in the lowercased text,
split the lowercased text on `" or "` and take the max of the parts,
else likewise for `" and "` with min, else `float(expr)`, else a
case-sensitive map lookup defaulting to 1. -/
def evalExpr (m : GeneMap) : Nat → Str → Option ℚ
  | 0, _ => none
  | n + 1, e0 =>
    let e := pyStrip e0
    match lastIdxAux '(' e with
    | some start =>
      match firstIdxFrom ')' start e with
      | some close =>
        (evalExpr m n ((e.take close).drop (start + 1))).bind fun r =>
          evalExpr m n (e.take start ++ ratToStr r ++ e.drop (close + 1))
      | none =>
        (evalExpr m n ((e.take (e.length - 1)).drop (start + 1))).bind fun r =>
          evalExpr m n (e.take start ++ ratToStr r ++ e)
    | none =>
      if containsSub orTok (pyLower e) then
        (evalMany m n (pySplit orTok (pyLower e))).bind pyMax
      else if containsSub andTok (pyLower e) then
        (evalMany m n (pySplit andTok (pyLower e))).bind pyMin
      else
        match pyFloat e with
        | some v => some v
        | none => some (get_gene_expr m e)
termination_by n _e => (n, 0)

/-- The list comprehension `[evaluate(p) for p in parts]` (api.py lines
821, 827). -/
def evalMany (m : GeneMap) : Nat → List Str → Option (List ℚ)
  | _, [] => some []
  | n, p :: ps => (evalExpr m n p).bind fun v => (evalMany m n ps).map (v :: ·)
termination_by n l => (n, l.length + 1)

end

/-- `evaluate_gpr_expression` (api.py lines 786-839).  A blank rule is 1.0
(constitutive).  `none` models a call that never returns: in the idealised
semantics nothing inside `evaluate` raises (the `ValueError` of `float` is
handled locally), so the source's final `except Exception` has no reachable
trigger other than resource exhaustion of an unbounded recursion. -/
def evaluate_gpr_expression (fuel : Nat) (gpr_rule : Str) (expression : GeneMap) : Option ℚ :=
  if pyStrip gpr_rule = [] then some 1 else evalExpr expression fuel gpr_rule

/-! ## Network model and constraint application -/

/-- A reaction of the network model (spec §3; the fields touched by the
modelled operations). -/
structure Reaction where
  id : Str
  lower_bound : ℚ
  upper_bound : ℚ
  gene_reaction_rule : Str
deriving DecidableEq

/-- Modelled from the spec: a gene of the network model.  Per spec §3 a
knock-out is a boolean flag, not a structural deletion; the concrete gene
object lives in the external COBRApy library, outside `src/`. -/
structure Gene where
  id : Str
  knocked_out : Bool
deriving DecidableEq

/-- The in-memory network model (spec §3): reactions, genes and the
designated objective reaction id. -/
structure NetworkModel where
  reactions : List Reaction
  genes : List Gene
  objective : Str
deriving DecidableEq

/-- A per-reaction constraint override: optional new lower/upper bound
(request field `constraints[rxn_id] = {lb?, ub?}`). -/
structure BoundOverride where
  lb : Option ℚ
  ub : Option ℚ
deriving DecidableEq

/-- The body of the per-override loop of `apply_constraints` (api.py lines
182-185): replace exactly the bound fields present in the override. -/
def applyOverrideToReaction (bounds : BoundOverride) (r : Reaction) : Reaction :=
  let r1 := match bounds.lb with
    | some v => { r with lower_bound := v }
    | none => r
  match bounds.ub with
  | some v => { r1 with upper_bound := v }
  | none => r1

/-- One iteration of the constraints loop of `apply_constraints` (api.py
lines 179-185): if the reaction id exists, update that reaction in place;
ids absent from the model are skipped. -/
def applyOneConstraint (m : NetworkModel) (rxn_id : Str) (bounds : BoundOverride) :
    NetworkModel :=
  if rxn_id ∈ m.reactions.map Reaction.id then
    { m with
      reactions := m.reactions.map fun r =>
        if r.id = rxn_id then applyOverrideToReaction bounds r else r }
  else m

/-- Modelled from the spec: `gene.knock_out()` (api.py line 191) lives in
the external COBRApy library, outside `src/`; per spec §4.1 it only marks
the gene knocked out — "knockout does not algorithmically propagate through
gene-rule logic to force dependent reaction bounds to zero". -/
def knockOutGene (m : NetworkModel) (gene_id : Str) : NetworkModel :=
  if gene_id ∈ m.genes.map Gene.id then
    { m with
      genes := m.genes.map fun g =>
        if g.id = gene_id then { g with knocked_out := true } else g }
  else m

/-- `apply_constraints` (api.py lines 176-193): apply every override in
order, then mark every listed knockout gene. -/
def apply_constraints (m : NetworkModel) (constraints : List (Str × BoundOverride))
    (knockouts : List Str) : NetworkModel :=
  let m1 := constraints.foldl (fun acc p => applyOneConstraint acc p.1 p.2) m
  knockouts.foldl knockOutGene m1

/-- The `lb ≤ ub` part of the NetworkModel invariant (spec §3). -/
def boundsOk (m : NetworkModel) : Bool :=
  m.reactions.all fun r => decide (r.lower_bound ≤ r.upper_bound)

/-! ## E-Flux bound scaling -/

/-- The bound-scaling step of `solve_eflux` for one reaction given its
expression score (api.py lines 647-651): if the score is below 1, a
positive upper bound and a negative lower bound are multiplied by it. -/
def scaleForExpr (expr : ℚ) (r : Reaction) : Reaction :=
  if expr < 1 then
    let r1 := if r.upper_bound > 0 then { r with upper_bound := r.upper_bound * expr } else r
    if r1.lower_bound < 0 then { r1 with lower_bound := r1.lower_bound * expr } else r1
  else r

/-- The per-reaction body of the E-Flux scaling loop (api.py lines 643-651):
reactions with a (non-empty) gene rule are scaled by their evaluated score;
`none` propagates a GPR evaluation that never returns. -/
def efluxScaleReaction (fuel : Nat) (expression : GeneMap) (r : Reaction) : Option Reaction :=
  if r.gene_reaction_rule ≠ [] then
    (evaluate_gpr_expression fuel r.gene_reaction_rule expression).map fun e => scaleForExpr e r
  else some r

/-- The whole E-Flux bound-scaling pass over the model. -/
def efluxScaleModel (fuel : Nat) (expression : GeneMap) (m : NetworkModel) :
    Option NetworkModel :=
  match m.reactions.foldr
      (fun r acc => (efluxScaleReaction fuel expression r).bind fun r1 =>
        acc.map (r1 :: ·)) (some []) with
  | some rs => some { m with reactions := rs }
  | none => none

/-! ## Formulation endpoints -/

/-- Modelled from the spec: the statuses the abstract optimizer reports
(spec §4.3); the optimizer itself is an external capability. -/
inductive OptStatus
  | optimal
  | infeasible
  | unbounded
deriving DecidableEq

/-- The status string carried into a response. -/
def statusStr : OptStatus → Str
  | .optimal => "optimal".toList
  | .infeasible => "infeasible".toList
  | .unbounded => "unbounded".toList

/-- Modelled from the spec: a solution returned by the abstract optimizer
(`model.optimize()` and friends): status, objective value and fluxes. -/
structure Solution where
  status : OptStatus
  objective_value : ℚ
  fluxes : List (Str × ℚ)

/-- An optimizer call that either returns a solution or raises (`Except.error`
carries the exception message). -/
abbrev Oracle := NetworkModel → Except Str Solution

/-- The response fields of `SolverResponse` used by the claims. -/
structure SolverResponse where
  status : Str
  objective_value : Option ℚ
  fluxes : List (Str × ℚ)
  method : Str
  error : Option Str
deriving DecidableEq

/-- The `except Exception` arm shared by every solve endpoint: a response
with status `"error"` carrying the exception message. -/
def errorResponse (method msg : Str) : SolverResponse :=
  { status := "error".toList, objective_value := none, fluxes := [], method := method,
    error := some msg }

/-- The success response built by the non-FVA endpoints: the optimizer's
status string, objective value and fluxes. -/
def okResponse (method : Str) (sol : Solution) : SolverResponse :=
  { status := statusStr sol.status, objective_value := some sol.objective_value,
    fluxes := sol.fluxes, method := method, error := none }

/-- `if request.objective and request.objective in model.reactions:` -/
def setObjective (obj : Option Str) (m : NetworkModel) : NetworkModel :=
  match obj with
  | some o => if o ≠ [] ∧ o ∈ m.reactions.map Reaction.id then { m with objective := o } else m
  | none => m

/-- The try-block of `solve_fba` (api.py lines 249-269): build the model
(`mfd` is the outcome of `model_from_dict`), apply constraints/knockouts,
set the objective, optimize. -/
def fbaBody (mfd : Except Str NetworkModel) (cs : List (Str × BoundOverride))
    (ks : List Str) (obj : Option Str) (opt : Oracle) : Except Str SolverResponse := do
  let m ← mfd
  let m := apply_constraints m cs ks
  let m := setObjective obj m
  let sol ← opt m
  pure (okResponse "fba".toList sol)

/-- `solve_fba` (api.py lines 236-277): the try-block result, with any
exception converted to an error response. -/
def solve_fba (mfd : Except Str NetworkModel) (cs : List (Str × BoundOverride))
    (ks : List Str) (obj : Option Str) (opt : Oracle) : SolverResponse :=
  match fbaBody mfd cs ks obj opt with
  | .ok r => r
  | .error e => errorResponse "fba".toList e

/-- The try-block of `solve_pfba` (api.py lines 297-315); `pfbaCall` is the
external `cobra.flux_analysis.pfba`. -/
def pfbaBody (mfd : Except Str NetworkModel) (cs : List (Str × BoundOverride))
    (ks : List Str) (obj : Option Str) (pfbaCall : Oracle) : Except Str SolverResponse := do
  let m ← mfd
  let m := apply_constraints m cs ks
  let m := setObjective obj m
  let sol ← pfbaCall m
  pure (okResponse "pfba".toList sol)

/-- `solve_pfba` (api.py lines 283-323). -/
def solve_pfba (mfd : Except Str NetworkModel) (cs : List (Str × BoundOverride))
    (ks : List Str) (obj : Option Str) (pfbaCall : Oracle) : SolverResponse :=
  match pfbaBody mfd cs ks obj pfbaCall with
  | .ok r => r
  | .error e => errorResponse "pfba".toList e

/-- The FVA response fields used by the claims. -/
structure FVAResponse where
  status : Str
  objective_value : Option ℚ
  ranges : List (Str × ℚ × ℚ)
  error : Option Str
deriving DecidableEq

/-- The reaction selection of `solve_fva` (api.py lines 348-350):
`reaction_list` stays `None` unless `request.reactions` is truthy (present
and non-empty); a truthy list is filtered to the ids present in the model
(and may itself filter down to an empty list). -/
def fvaReactionSel (rxns : Option (List Str)) (m : NetworkModel) : Option (List Str) :=
  match rxns with
  | some rs => if rs ≠ [] then some (rs.filter (· ∈ m.reactions.map Reaction.id)) else none
  | none => none

/-- The try-block of `solve_fva` (api.py lines 343-376); `fvaCall` models
the external `flux_variability_analysis`, which raises unless its internal
solves all report optimal, and `opt` the final `model.optimize()`; on
success the source returns the literal status `"optimal"`. -/
def fvaBody (mfd : Except Str NetworkModel) (cs : List (Str × BoundOverride))
    (ks : List Str) (frac : ℚ) (rxns : Option (List Str))
    (fvaCall : NetworkModel → ℚ → Option (List Str) → Except Str (List (Str × ℚ × ℚ)))
    (opt : Oracle) : Except Str FVAResponse := do
  let m ← mfd
  let m := apply_constraints m cs ks
  let sel := fvaReactionSel rxns m
  let ranges ← fvaCall m frac sel
  let sol ← opt m
  pure { status := "optimal".toList, objective_value := some sol.objective_value,
         ranges := ranges, error := none }

/-- `solve_fva` (api.py lines 329-383). -/
def solve_fva (mfd : Except Str NetworkModel) (cs : List (Str × BoundOverride))
    (ks : List Str) (frac : ℚ) (rxns : Option (List Str))
    (fvaCall : NetworkModel → ℚ → Option (List Str) → Except Str (List (Str × ℚ × ℚ)))
    (opt : Oracle) : FVAResponse :=
  match fvaBody mfd cs ks frac rxns fvaCall opt with
  | .ok r => r
  | .error e => { status := "error".toList, objective_value := none, ranges := [],
                  error := some e }

/-- The try-block of `solve_moma` (api.py lines 403-427): wild-type solve
only when no reference fluxes are supplied, then constraints/knockouts,
then the external `moma` call. -/
def momaBody (mfd : Except Str NetworkModel) (cs : List (Str × BoundOverride))
    (ks : List Str) (ref : Option (List (Str × ℚ))) (wtOpt : Oracle)
    (momaCall : NetworkModel → List (Str × ℚ) → Except Str Solution) :
    Except Str SolverResponse := do
  let m ← mfd
  let reference ← match ref with
    | some f => pure f
    | none => do
      let wt ← wtOpt m
      pure wt.fluxes
  let m := apply_constraints m cs ks
  let sol ← momaCall m reference
  pure (okResponse "moma".toList sol)

/-- `solve_moma` (api.py lines 389-435). -/
def solve_moma (mfd : Except Str NetworkModel) (cs : List (Str × BoundOverride))
    (ks : List Str) (ref : Option (List (Str × ℚ))) (wtOpt : Oracle)
    (momaCall : NetworkModel → List (Str × ℚ) → Except Str Solution) : SolverResponse :=
  match momaBody mfd cs ks ref wtOpt momaCall with
  | .ok r => r
  | .error e => errorResponse "moma".toList e

/-- The reaction-expression map built by GIMME and the omics endpoints
(api.py lines 458-464): reactions with a gene rule are scored by the GPR
evaluator, constitutive reactions score 1.0.  `none` propagates a GPR
evaluation that never returns. -/
def reactionScores (fuel : Nat) (expression : GeneMap) (m : NetworkModel) :
    Option (List (Str × ℚ)) :=
  m.reactions.foldr
    (fun r acc =>
      (if r.gene_reaction_rule ≠ [] then
        evaluate_gpr_expression fuel r.gene_reaction_rule expression
       else some 1).bind fun e => acc.map ((r.id, e) :: ·))
    (some [])

/-- The GIMME penalty weights (api.py lines 486-491): reactions whose score
is below the threshold get weight `threshold - score`. -/
def gimmeWeights (threshold : ℚ) (scores : List (Str × ℚ)) : List (Str × ℚ) :=
  (scores.filter fun p => decide (p.2 < threshold)).map fun p => (p.1, threshold - p.2)

/-- The try-block of `solve_gimme` (api.py lines 454-507): score reactions,
run FBA, raise `ValueError` if not optimal (caught by the endpoint's own
handler), then solve the penalty reformulation (`gimmeOpt`, abstracting the
rebuilt objective and the raised objective bound). -/
def gimmeBody (mfd : Except Str NetworkModel) (fuel : Nat) (expression : GeneMap)
    (threshold required_fraction : ℚ) (opt : Oracle)
    (gimmeOpt : NetworkModel → List (Str × ℚ) → ℚ → Except Str Solution) :
    Option (Except Str SolverResponse) :=
  match mfd with
  | .error e => some (.error e)
  | .ok m =>
    match reactionScores fuel expression m with
    | none => none
    | some scores =>
      some (do
        let sol1 ← opt m
        if sol1.status ≠ OptStatus.optimal then
          throw ("Model infeasible: ".toList ++ statusStr sol1.status)
        else do
          let required_obj := required_fraction * sol1.objective_value
          let sol2 ← gimmeOpt m (gimmeWeights threshold scores) required_obj
          pure (okResponse "gimme".toList sol2))

/-- `solve_gimme` (api.py lines 441-515); `none` models a call that never
returns because a GPR evaluation diverges. -/
def solve_gimme (mfd : Except Str NetworkModel) (fuel : Nat) (expression : GeneMap)
    (threshold required_fraction : ℚ) (opt : Oracle)
    (gimmeOpt : NetworkModel → List (Str × ℚ) → ℚ → Except Str Solution) :
    Option SolverResponse :=
  (gimmeBody mfd fuel expression threshold required_fraction opt gimmeOpt).map fun b =>
    match b with
    | .ok r => r
    | .error e => errorResponse "gimme".toList e

/-- The iMAT high/low classification (api.py lines 540-549): `elif` gives
the high class priority. -/
def imatClassify (high_threshold low_threshold : ℚ) (scores : List (Str × ℚ)) :
    List Str × List Str :=
  ((scores.filter fun p => decide (high_threshold ≤ p.2)).map Prod.fst,
   ((scores.filter fun p => decide (¬ high_threshold ≤ p.2)).filter
      fun p => decide (p.2 ≤ low_threshold)).map Prod.fst)

/-- The try-block of `solve_imat` (api.py lines 536-612): score and
classify reactions, then solve the MILP (`imatOpt` abstracts the binary
variables, indicator constraints and consistency objective). -/
def imatBody (mfd : Except Str NetworkModel) (fuel : Nat) (expression : GeneMap)
    (high_threshold low_threshold : ℚ)
    (imatOpt : NetworkModel → List Str → List Str → Except Str Solution) :
    Option (Except Str SolverResponse) :=
  match mfd with
  | .error e => some (.error e)
  | .ok m =>
    match reactionScores fuel expression
        { m with reactions := m.reactions.filter fun r => r.gene_reaction_rule ≠ [] } with
    | none => none
    | some scores =>
      some (do
        let (hi, lo) := imatClassify high_threshold low_threshold scores
        let sol ← imatOpt m hi lo
        pure (okResponse "imat".toList sol))

/-- `solve_imat` (api.py lines 521-620). -/
def solve_imat (mfd : Except Str NetworkModel) (fuel : Nat) (expression : GeneMap)
    (high_threshold low_threshold : ℚ)
    (imatOpt : NetworkModel → List Str → List Str → Except Str Solution) :
    Option SolverResponse :=
  (imatBody mfd fuel expression high_threshold low_threshold imatOpt).map fun b =>
    match b with
    | .ok r => r
    | .error e => errorResponse "imat".toList e

/-- The try-block of `solve_eflux` (api.py lines 639-664): scale bounds by
expression, then ordinary FBA. -/
def efluxBody (mfd : Except Str NetworkModel) (fuel : Nat) (expression : GeneMap)
    (opt : Oracle) : Option (Except Str SolverResponse) :=
  match mfd with
  | .error e => some (.error e)
  | .ok m =>
    match efluxScaleModel fuel expression m with
    | none => none
    | some m1 =>
      some (do
        let sol ← opt m1
        pure (okResponse "eflux".toList sol))

/-- `solve_eflux` (api.py lines 626-672). -/
def solve_eflux (mfd : Except Str NetworkModel) (fuel : Nat) (expression : GeneMap)
    (opt : Oracle) : Option SolverResponse :=
  (efluxBody mfd fuel expression opt).map fun b =>
    match b with
    | .ok r => r
    | .error e => errorResponse "eflux".toList e

/-! ## Benchmark catalog and stratified sampling -/

/-- BiGG model metadata (benchmark.py `ModelInfo`). -/
structure ModelInfo where
  bigg_id : Str
  organism : Str
  metabolite_count : Nat
  reaction_count : Nat
  gene_count : Nat
deriving DecidableEq

/-- Placeholder for an (unreachable) out-of-range index access. -/
def dfltModelInfo : ModelInfo := ⟨[], [], 0, 0, 0⟩

/-- Stable insertion of a model before the first strictly larger one. -/
def insertByCount (a : ModelInfo) : List ModelInfo → List ModelInfo
  | [] => [a]
  | b :: t => if b.reaction_count < a.reaction_count then b :: insertByCount a t
              else a :: b :: t

/-- `filtered.sort(key=lambda m: m.reaction_count)` (benchmark.py line 196):
a stable sort by reaction count, modelled as insertion sort. -/
def sortByCount : List ModelInfo → List ModelInfo
  | [] => []
  | a :: t => insertByCount a (sortByCount t)

/-- The filtered, size-sorted candidate list of `get_benchmark_models`
(benchmark.py lines 189-196). -/
def filteredSorted (catalog : List ModelInfo) (min_reactions max_reactions : Nat) :
    List ModelInfo :=
  sortByCount (catalog.filter fun m =>
    decide (min_reactions ≤ m.reaction_count) && decide (m.reaction_count ≤ max_reactions))

/-- One sampled index of the stratified sampling (benchmark.py lines
203-206): `int(i * step)` with `step = len(filtered) / limit`; Python's
float arithmetic is modelled as exact rational arithmetic, under which
`int(i * (len/limit))` is the floor of `i*len/limit`. -/
def sampleIdx (flen limit i : Nat) : Nat :=
  (((i : ℚ) * ((flen : ℚ) / (limit : ℚ))).floor).toNat

/-- `get_benchmark_models` (benchmark.py lines 177-209): filter by reaction
count, sort by size, return everything when at most `limit` models remain,
otherwise sample `limit` evenly spaced indices. -/
def get_benchmark_models (catalog : List ModelInfo)
    (min_reactions max_reactions limit : Nat) : List ModelInfo :=
  let filtered := filteredSorted catalog min_reactions max_reactions
  if filtered.length ≤ limit then filtered
  else (List.range limit).map fun i =>
    filtered.getD (sampleIdx filtered.length limit i) dfltModelInfo

/-! ## Benchmark comparator -/

/-- A per-reaction flux record: FBA-style scalar or FVA-style min/max pair
(`isinstance(fa, dict)` in the source). -/
inductive FluxVal
  | scalar (v : ℚ)
  | minmax (mn mx : ℚ)
deriving DecidableEq

/-- `SolveResult` (benchmark.py lines 70-81), the fields read by `compare`. -/
structure BSolveResult where
  model_id : Str
  method : Str
  solver : Str
  status : Str
  objective_value : Option ℚ
  fluxes : Option (List (Str × FluxVal))
  solve_time_ms : ℚ
deriving DecidableEq

/-- `ComparisonResult` (benchmark.py lines 83-99).  The source stores
`flux_l2_norm = sqrt(Σ diff²)`; over ℚ this development carries the sum of
squares `flux_l2_sq` instead (`sqrt s = 0 ↔ s = 0`, and no claim compares
the norm with anything but 0 or null). -/
structure BComparisonResult where
  model_id : Str
  method : Str
  solver_a : Str
  solver_b : Str
  obj_a : Option ℚ
  obj_b : Option ℚ
  obj_diff : Option ℚ
  obj_rel_diff : Option ℚ
  flux_l2_sq : Option ℚ
  flux_max_diff : Option ℚ
  flux_max_diff_rxn : Option Str
  time_a_ms : ℚ
  time_b_ms : ℚ
  passed : Bool
  notes : Str
deriving DecidableEq

/-- `OBJECTIVE_TOLERANCE = 1e-6` (benchmark.py line 56). -/
def OBJECTIVE_TOLERANCE : ℚ := mkRat 1 1000000

/-- `FLUX_TOLERANCE = 1e-4` (benchmark.py line 57). -/
def FLUX_TOLERANCE : ℚ := mkRat 1 10000

/-- The per-reaction difference (benchmark.py lines 494-498): endpoint-wise
max for FVA pairs, absolute difference for scalars.  A mixed pair raises a
`TypeError` in the source and is unreachable for results produced by one
method; it is modelled as 0 and used by no theorem. -/
def fluxDiff : FluxVal → FluxVal → ℚ
  | .scalar a, .scalar b => |a - b|
  | .minmax amn amx, .minmax bmn bmx => max |amn - bmn| |amx - bmx|
  | _, _ => 0

/-- First value recorded for a reaction id in a flux map. -/
def lookupFlux : List (Str × FluxVal) → Str → FluxVal
  | [], _ => .scalar 0
  | (k, v) :: t, key => if k = key then v else lookupFlux t key

/-- `common_rxns = set(a) & set(b)` (benchmark.py line 487), iterated in
the key order of the first map (the source iterates a Python set in
unspecified order; only the tie-breaking choice of `flux_max_diff_rxn`
depends on it). -/
def commonKeys (a b : List (Str × FluxVal)) : List Str :=
  (a.map Prod.fst).filter fun k => k ∈ b.map Prod.fst

/-- The flux-comparison fold (benchmark.py lines 489-509): sum of squared
differences, largest difference and its reaction id. -/
def fluxCompare (fa fb : List (Str × FluxVal)) : ℚ × ℚ × Option Str :=
  (commonKeys fa fb).foldl
    (fun acc k =>
      let d := fluxDiff (lookupFlux fa k) (lookupFlux fb k)
      (acc.1 + d ^ 2, if acc.2.1 < d then (d, some k) else acc.2))
    (0, 0, none)

/-- `BenchmarkComparator.compare` (benchmark.py lines 447-534). -/
def BenchmarkComparator.compare (ra rb : BSolveResult) : BComparisonResult :=
  if ra.status ≠ "optimal".toList ∨ rb.status ≠ "optimal".toList then
    { model_id := ra.model_id, method := ra.method, solver_a := ra.solver, solver_b := rb.solver,
      obj_a := ra.objective_value, obj_b := rb.objective_value,
      obj_diff := none, obj_rel_diff := none, flux_l2_sq := none, flux_max_diff := none,
      flux_max_diff_rxn := none, time_a_ms := ra.solve_time_ms, time_b_ms := rb.solve_time_ms,
      passed := false,
      notes := "Non-optimal status: ".toList ++ ra.status ++ "/".toList ++ rb.status }
  else
    let obj_a := ra.objective_value.getD 0
    let obj_b := rb.objective_value.getD 0
    let obj_diff := |obj_a - obj_b|
    let obj_rel_diff := obj_diff / max (max |obj_a| |obj_b|) (mkRat 1 10000000000)
    let fluxInfo : Option (ℚ × ℚ × Option Str) :=
      match ra.fluxes, rb.fluxes with
      | some fa, some fb =>
        if fa ≠ [] ∧ fb ≠ [] ∧ commonKeys fa fb ≠ [] then some (fluxCompare fa fb) else none
      | _, _ => none
    let passed := decide (obj_diff < OBJECTIVE_TOLERANCE)
    let flux_max := fluxInfo.map fun t => t.2.1
    let notes : Str :=
      if ¬ passed then "Objective difference exceeds tolerance".toList
      else match flux_max with
        | some fm => if fm ≠ 0 ∧ FLUX_TOLERANCE < fm then "Large flux difference".toList else []
        | none => []
    { model_id := ra.model_id, method := ra.method, solver_a := ra.solver, solver_b := rb.solver,
      obj_a := some obj_a, obj_b := some obj_b,
      obj_diff := some obj_diff, obj_rel_diff := some obj_rel_diff,
      flux_l2_sq := fluxInfo.map fun t => t.1,
      flux_max_diff := flux_max,
      flux_max_diff_rxn := fluxInfo.bind fun t => t.2.2,
      time_a_ms := ra.solve_time_ms, time_b_ms := rb.solve_time_ms,
      passed := passed, notes := notes }

/-! ## Auxiliary definitions used by the theorems -/

/-- First override recorded for a reaction id (the unique one when the
override map has distinct keys, as a Python dict does). -/
def lookupOv : List (Str × BoundOverride) → Str → Option BoundOverride
  | [], _ => none
  | (k, v) :: t, key => if k = key then some v else lookupOv t key

/-- The accumulated effect of the override loop on a single reaction. -/
def overrideFold (cs : List (Str × BoundOverride)) (r : Reaction) : Reaction :=
  cs.foldl (fun acc p => if acc.id = p.1 then applyOverrideToReaction p.2 acc else acc) r

/-- The GPR evaluator terminates on the given rule and map within some
recursion budget. -/
def gprTerminates (rule : Str) (m : GeneMap) : Prop :=
  ∃ fuel, (evaluate_gpr_expression fuel rule m).isSome = true

/-- Two expression maps agree on every all-lowercase key. -/
def lcKeysAgree (m1 m2 : GeneMap) : Prop :=
  ∀ k, pyLower k = k → lookupMap m1 k = lookupMap m2 k

/-- The expression map of spec §8 property 2: a↦0.2, b↦0.8, c↦0.5. -/
def mapABC : GeneMap :=
  [("a".toList, mkRat 1 5), ("b".toList, mkRat 4 5), ("c".toList, mkRat 1 2)]

/-- An expression map whose only entry is under a mixed-case gene id. -/
def mapGeneA : GeneMap := [("GeneA".toList, mkRat 3 10)]

/-- A one-reaction model satisfying the bounds invariant. -/
def c8Model : NetworkModel :=
  ⟨[⟨"R1".toList, 0, 1, []⟩], [], "R1".toList⟩

/-- An override that sets the lower bound above the existing upper bound. -/
def c8Overrides : List (Str × BoundOverride) :=
  [("R1".toList, ⟨some 2, none⟩)]

/-- The solver statuses a formulation endpoint may report on success
(spec §4.3). -/
def okStatuses : List Str :=
  ["optimal".toList, "infeasible".toList, "unbounded".toList]

/-- A 1000-model catalog with strictly increasing reaction counts. -/
def c9Catalog : List ModelInfo :=
  (List.range 1000).map fun i => ⟨"m".toList, [], 0, i + 10, 0⟩

/-- A one-reaction model with a forward-only reaction and a gene rule,
used to exercise the amended invariant statement. -/
def c8WModel : NetworkModel :=
  ⟨[⟨"R1".toList, mkRat (-10) 1, mkRat 5 1, "g".toList⟩], [], "R1".toList⟩

/-- The expression map scoring gene `g` at one half. -/
def c8WEm : GeneMap := [("g".toList, mkRat 1 2)]

/-- `c8WModel` after E-Flux scaling by a score of one half. -/
def c8WScaled : NetworkModel :=
  ⟨[⟨"R1".toList, mkRat (-5) 1, mkRat 5 2, "g".toList⟩], [], "R1".toList⟩

/-- An optimal benchmark solve result with a non-empty flux map. -/
def c3OptResult : BSolveResult :=
  ⟨"m1".toList, "fba".toList, "highs".toList, "optimal".toList, some (mkRat 3 2),
   some [("R1".toList, FluxVal.scalar (mkRat 1 2)), ("R2".toList, FluxVal.scalar (mkRat 7 5))],
   mkRat 1 1⟩

/-- An infeasible benchmark solve result. -/
def c3BadResult : BSolveResult :=
  ⟨"m1".toList, "fba".toList, "glpk".toList, "infeasible".toList, none, none, mkRat 2 1⟩

/-! ## Helper lemmas: constraint application -/

theorem applyOverride_id (o : BoundOverride) (r : Reaction) :
    (applyOverrideToReaction o r).id = r.id := by
  unfold applyOverrideToReaction
  cases o.lb <;> cases o.ub <;> rfl

theorem applyOverride_rule (o : BoundOverride) (r : Reaction) :
    (applyOverrideToReaction o r).gene_reaction_rule = r.gene_reaction_rule := by
  unfold applyOverrideToReaction
  cases o.lb <;> cases o.ub <;> rfl

theorem applyOverride_bounds (o : BoundOverride) (r : Reaction) :
    (applyOverrideToReaction o r).lower_bound = o.lb.getD r.lower_bound
      ∧ (applyOverrideToReaction o r).upper_bound = o.ub.getD r.upper_bound := by
  unfold applyOverrideToReaction
  cases o.lb <;> cases o.ub <;> exact ⟨rfl, rfl⟩

theorem applyOneConstraint_reactions (m : NetworkModel) (k : Str) (o : BoundOverride) :
    (applyOneConstraint m k o).reactions
      = m.reactions.map fun r => if r.id = k then applyOverrideToReaction o r else r := by
  unfold applyOneConstraint
  by_cases h : k ∈ m.reactions.map Reaction.id
  · rw [if_pos h]
  · rw [if_neg h]
    have : ∀ r ∈ m.reactions, (if r.id = k then applyOverrideToReaction o r else r) = r := by
      intro r hr
      rw [if_neg]
      intro he
      exact h (he ▸ List.mem_map_of_mem Reaction.id hr)
    calc m.reactions = m.reactions.map id := (List.map_id m.reactions).symm
      _ = _ := by
        apply List.map_congr_left
        intro r hr
        exact ((this r hr).symm)

theorem applyOneConstraint_genes (m : NetworkModel) (k : Str) (o : BoundOverride) :
    (applyOneConstraint m k o).genes = m.genes := by
  unfold applyOneConstraint
  by_cases h : k ∈ m.reactions.map Reaction.id
  · rw [if_pos h]
  · rw [if_neg h]

theorem overrideFold_nil : overrideFold [] = id := funext fun _r => rfl

theorem overrideFold_cons (p : Str × BoundOverride) (cs : List (Str × BoundOverride))
    (r : Reaction) :
    overrideFold (p :: cs) r
      = overrideFold cs (if r.id = p.1 then applyOverrideToReaction p.2 r else r) := rfl

theorem constraintsFold_spec (cs : List (Str × BoundOverride)) (m : NetworkModel) :
    (cs.foldl (fun acc p => applyOneConstraint acc p.1 p.2) m).reactions
        = m.reactions.map (overrideFold cs)
      ∧ (cs.foldl (fun acc p => applyOneConstraint acc p.1 p.2) m).genes = m.genes := by
  induction cs generalizing m with
  | nil =>
    constructor
    · simp only [List.foldl_nil, overrideFold_nil, List.map_id]
    · rfl
  | cons p cs ih =>
    have h1 := ih (applyOneConstraint m p.1 p.2)
    constructor
    · rw [List.foldl_cons, h1.1, applyOneConstraint_reactions, List.map_map]
      apply List.map_congr_left
      intro r _hr
      rw [Function.comp_apply, overrideFold_cons]
    · rw [List.foldl_cons, h1.2, applyOneConstraint_genes]

theorem knockOutGene_reactions (m : NetworkModel) (g : Str) :
    (knockOutGene m g).reactions = m.reactions := by
  unfold knockOutGene
  by_cases h : g ∈ m.genes.map Gene.id
  · rw [if_pos h]
  · rw [if_neg h]

theorem knockOutGene_gene_ids (m : NetworkModel) (g : Str) :
    (knockOutGene m g).genes.map Gene.id = m.genes.map Gene.id := by
  unfold knockOutGene
  by_cases h : g ∈ m.genes.map Gene.id
  · rw [if_pos h]
    simp only [List.map_map]
    apply List.map_congr_left
    intro x _hx
    by_cases hx : x.id = g
    · simp [Function.comp, hx]
    · simp [Function.comp, hx]
  · rw [if_neg h]

theorem knockoutsFold_spec (ks : List Str) (m : NetworkModel) :
    (ks.foldl knockOutGene m).reactions = m.reactions
      ∧ (ks.foldl knockOutGene m).genes.map Gene.id = m.genes.map Gene.id := by
  induction ks generalizing m with
  | nil => exact ⟨rfl, rfl⟩
  | cons g ks ih =>
    have h1 := ih (knockOutGene m g)
    exact ⟨by rw [List.foldl_cons, h1.1, knockOutGene_reactions],
      by rw [List.foldl_cons, h1.2, knockOutGene_gene_ids]⟩

theorem apply_constraints_reactions (m : NetworkModel) (cs : List (Str × BoundOverride))
    (ks : List Str) :
    (apply_constraints m cs ks).reactions = m.reactions.map (overrideFold cs) := by
  unfold apply_constraints
  rw [(knockoutsFold_spec ks _).1, (constraintsFold_spec cs m).1]

theorem apply_constraints_gene_ids (m : NetworkModel) (cs : List (Str × BoundOverride))
    (ks : List Str) :
    (apply_constraints m cs ks).genes.map Gene.id = m.genes.map Gene.id := by
  unfold apply_constraints
  rw [(knockoutsFold_spec ks _).2, (constraintsFold_spec cs m).2]

theorem overrideFold_skip (cs : List (Str × BoundOverride)) (r : Reaction)
    (h : r.id ∉ cs.map Prod.fst) : overrideFold cs r = r := by
  induction cs with
  | nil => rfl
  | cons p cs ih =>
    have h1 : r.id ≠ p.1 := by
      intro he
      exact h (by rw [List.map_cons, ← he]; exact List.mem_cons_self _ _)
    have h2 : r.id ∉ cs.map Prod.fst := by
      intro hm
      exact h (by rw [List.map_cons]; exact List.mem_cons_of_mem _ hm)
    rw [overrideFold_cons, if_neg h1]
    exact ih h2

theorem lookupOv_mem {cs : List (Str × BoundOverride)} {key : Str} {o : BoundOverride}
    (h : lookupOv cs key = some o) : (key, o) ∈ cs := by
  induction cs with
  | nil => exact Option.noConfusion h
  | cons p cs ih =>
    by_cases hk : p.1 = key
    · rw [lookupOv, if_pos hk] at h
      have hp : p = (key, o) := by
        obtain ⟨a, b⟩ := p
        exact Prod.ext hk (Option.some.inj h)
      rw [← hp]
      exact List.mem_cons_self p cs
    · rw [lookupOv, if_neg hk] at h
      exact List.mem_cons_of_mem _ (ih h)

theorem lookupOv_eq_none {cs : List (Str × BoundOverride)} {key : Str}
    (h : key ∉ cs.map Prod.fst) : lookupOv cs key = none := by
  induction cs with
  | nil => rfl
  | cons p cs ih =>
    have h1 : p.1 ≠ key := by
      intro he
      exact h (by rw [List.map_cons, he]; exact List.mem_cons_self _ _)
    have h2 : key ∉ cs.map Prod.fst := by
      intro hm
      exact h (by rw [List.map_cons]; exact List.mem_cons_of_mem _ hm)
    rw [lookupOv, if_neg h1]
    exact ih h2

theorem overrideFold_lookup (cs : List (Str × BoundOverride)) (r : Reaction)
    (hnd : (cs.map Prod.fst).Nodup) :
    overrideFold cs r = match lookupOv cs r.id with
      | some o => applyOverrideToReaction o r
      | none => r := by
  induction cs with
  | nil => rfl
  | cons p cs ih =>
    have hnd' : (cs.map Prod.fst).Nodup := (List.nodup_cons.mp hnd).2
    by_cases hk : r.id = p.1
    · have hp1 : p.1 ∉ cs.map Prod.fst := (List.nodup_cons.mp (by rwa [List.map_cons] at hnd)).1
      have hskip : overrideFold cs (applyOverrideToReaction p.2 r)
          = applyOverrideToReaction p.2 r := by
        apply overrideFold_skip
        rw [applyOverride_id, hk]
        exact hp1
      rw [overrideFold_cons, if_pos hk, hskip, lookupOv, if_pos hk.symm]
    · rw [overrideFold_cons, if_neg hk, ih hnd', lookupOv, if_neg (fun he => hk he.symm)]

theorem applyOverride_eq (o : BoundOverride) (r : Reaction) :
    applyOverrideToReaction o r
      = ⟨r.id, o.lb.getD r.lower_bound, o.ub.getD r.upper_bound, r.gene_reaction_rule⟩ := by
  obtain ⟨lb, ub⟩ := o
  cases lb <;> cases ub <;> rfl

/-- C6: `apply_constraints` replaces, for each override whose reaction id
exists in the model, exactly the bound fields present in that override;
overrides naming absent reaction ids are skipped; the bounds of every
reaction not named by an applied override are unchanged; gene knockouts
never touch reactions (the function is total, so the call never raises). -/
theorem c6_apply_constraints_overrides (m : NetworkModel)
    (cs : List (Str × BoundOverride)) (ks : List Str)
    (hnd : (cs.map Prod.fst).Nodup) :
    (apply_constraints m cs ks).reactions
      = m.reactions.map (fun r =>
          match lookupOv cs r.id with
          | some o => ⟨r.id, o.lb.getD r.lower_bound, o.ub.getD r.upper_bound,
                       r.gene_reaction_rule⟩
          | none => r)
    ∧ (apply_constraints m cs ks).genes.map Gene.id = m.genes.map Gene.id := by
  refine ⟨?_, apply_constraints_gene_ids m cs ks⟩
  rw [apply_constraints_reactions]
  apply List.map_congr_left
  intro r _hr
  rw [overrideFold_lookup cs r hnd]
  cases h : lookupOv cs r.id with
  | none => rfl
  | some o => exact applyOverride_eq o r

theorem c6_witness :
    (apply_constraints c8Model c8Overrides ["g1".toList]).reactions
      = c8Model.reactions.map (fun r =>
          match lookupOv c8Overrides r.id with
          | some o => ⟨r.id, o.lb.getD r.lower_bound, o.ub.getD r.upper_bound,
                       r.gene_reaction_rule⟩
          | none => r) :=
  (c6_apply_constraints_overrides c8Model c8Overrides ["g1".toList]
    (by with_unfolding_all decide)).1

/-- C7: gene knockouts applied through `apply_constraints` only flag genes:
the resulting reactions are exactly those produced by the overrides alone
(identical bounds with an empty knockout list), with no knockouts and no
overrides the reactions are untouched, and the gene list keeps its ids. -/
theorem c7_knockout_does_not_touch_bounds (m : NetworkModel)
    (cs : List (Str × BoundOverride)) (ks : List Str) :
    (apply_constraints m cs ks).reactions = (apply_constraints m cs []).reactions
    ∧ (apply_constraints m [] ks).reactions = m.reactions
    ∧ (apply_constraints m cs ks).genes.map Gene.id = m.genes.map Gene.id := by
  refine ⟨?_, ?_, apply_constraints_gene_ids m cs ks⟩
  · rw [apply_constraints_reactions, apply_constraints_reactions]
  · rw [apply_constraints_reactions, overrideFold_nil, List.map_id]

/-- C4: the E-Flux scaling step never widens a bound.  For a nonnegative
score below 1 the scaled bounds satisfy `|new| ≤ |original|` (with the
non-positive upper bound and non-negative lower bound left exactly
unchanged); a score of at least 1 leaves the reaction unchanged, as does
the absence of a gene rule.  (Expression values are documented as
non-negative, spec §3, hence the `0 ≤ e` hypothesis.) -/
theorem c4_eflux_never_widens (e : ℚ) (r : Reaction) (he : 0 ≤ e) :
    (e < 1 →
      |(scaleForExpr e r).upper_bound| ≤ |r.upper_bound|
      ∧ |(scaleForExpr e r).lower_bound| ≤ |r.lower_bound|
      ∧ (¬ 0 < r.upper_bound → (scaleForExpr e r).upper_bound = r.upper_bound)
      ∧ (¬ r.lower_bound < 0 → (scaleForExpr e r).lower_bound = r.lower_bound))
    ∧ (1 ≤ e → scaleForExpr e r = r)
    ∧ (∀ fuel em, r.gene_reaction_rule = [] → efluxScaleReaction fuel em r = some r) := by
  have habs : ∀ x : ℚ, e < 1 → |x * e| ≤ |x| := by
    intro x hlt
    rw [abs_mul, abs_of_nonneg he]
    exact mul_le_of_le_one_right (abs_nonneg x) (le_of_lt hlt)
  refine ⟨?_, ?_, ?_⟩
  · intro hlt
    unfold scaleForExpr
    rw [if_pos hlt]
    by_cases h1 : r.upper_bound > 0
    · rw [if_pos h1]
      by_cases h2 : r.lower_bound < 0
      · rw [if_pos (show ({ r with upper_bound := r.upper_bound * e } : Reaction).lower_bound < 0 from h2)]
        exact ⟨habs _ hlt, habs _ hlt, fun hc => absurd h1 hc, fun hc => absurd h2 hc⟩
      · rw [if_neg (show ¬ ({ r with upper_bound := r.upper_bound * e } : Reaction).lower_bound < 0 from h2)]
        exact ⟨habs _ hlt, le_refl _, fun hc => absurd h1 hc, fun _ => rfl⟩
    · rw [if_neg h1]
      by_cases h2 : r.lower_bound < 0
      · rw [if_pos h2]
        exact ⟨le_refl _, habs _ hlt, fun _ => rfl, fun hc => absurd h2 hc⟩
      · rw [if_neg h2]
        exact ⟨le_refl _, le_refl _, fun _ => rfl, fun _ => rfl⟩
  · intro hge
    unfold scaleForExpr
    rw [if_neg (not_lt.mpr hge)]
  · intro fuel em hrule
    unfold efluxScaleReaction
    rw [if_neg (by rw [hrule]; exact fun h => h rfl)]

theorem c4_witness :
    |(scaleForExpr (mkRat 1 2) ⟨"R".toList, mkRat (-2) 1, mkRat 3 1, ['g']⟩).upper_bound|
        ≤ |(⟨"R".toList, mkRat (-2) 1, mkRat 3 1, ['g']⟩ : Reaction).upper_bound|
    ∧ scaleForExpr (mkRat 3 2) ⟨"R".toList, mkRat (-2) 1, mkRat 3 1, ['g']⟩
        = ⟨"R".toList, mkRat (-2) 1, mkRat 3 1, ['g']⟩ :=
  ⟨((c4_eflux_never_widens (mkRat 1 2) _ (by with_unfolding_all decide)).1
      (by with_unfolding_all decide)).1,
   (c4_eflux_never_widens (mkRat 3 2) _ (by with_unfolding_all decide)).2.1
      (by with_unfolding_all decide)⟩

/-! ## C8: bounds invariant -/

/-- C8 counterexample: a model satisfying the `lb ≤ ub` invariant loses it
after `apply_constraints` with an override that raises the lower bound
above the existing upper bound, so the invariant claim fails as stated. -/
theorem c8_counterexample :
    boundsOk c8Model = true
    ∧ boundsOk (apply_constraints c8Model c8Overrides []) = false := by
  with_unfolding_all decide

theorem efluxFold_mem {fuel : Nat} {em : GeneMap} :
    ∀ (rs : List Reaction) (out : List Reaction),
      rs.foldr (fun r acc => (efluxScaleReaction fuel em r).bind fun r1 =>
        acc.map (r1 :: ·)) (some []) = some out →
      ∀ r' ∈ out, ∃ r ∈ rs, efluxScaleReaction fuel em r = some r' := by
  intro rs
  induction rs with
  | nil =>
    intro out h r' hr'
    rw [List.foldr_nil] at h
    rw [← Option.some.inj h] at hr'
    exact absurd hr' (List.not_mem_nil r')
  | cons r rs ih =>
    intro out h r' hr'
    rw [List.foldr_cons] at h
    cases hs : efluxScaleReaction fuel em r with
    | none => rw [hs] at h; exact Option.noConfusion h
    | some r1 =>
      rw [hs, Option.some_bind] at h
      cases hrec : rs.foldr (fun r acc => (efluxScaleReaction fuel em r).bind fun r1 =>
          acc.map (r1 :: ·)) (some []) with
      | none => rw [hrec] at h; exact Option.noConfusion h
      | some acc =>
        rw [hrec, Option.map_some'] at h
        rw [← Option.some.inj h] at hr'
        cases List.mem_cons.mp hr' with
        | inl he => exact ⟨r, List.mem_cons_self r rs, he ▸ hs⟩
        | inr hm =>
          obtain ⟨r0, hr0, hr0e⟩ := ih acc hrec r' hm
          exact ⟨r0, List.mem_cons_of_mem r hr0, hr0e⟩

theorem efluxScaleModel_mem {fuel : Nat} {em : GeneMap} {m m' : NetworkModel}
    (h : efluxScaleModel fuel em m = some m') :
    ∀ r' ∈ m'.reactions, ∃ r ∈ m.reactions, efluxScaleReaction fuel em r = some r' := by
  unfold efluxScaleModel at h
  cases hf : m.reactions.foldr (fun r acc => (efluxScaleReaction fuel em r).bind fun r1 =>
      acc.map (r1 :: ·)) (some []) with
  | none => rw [hf] at h; exact Option.noConfusion h
  | some rs =>
    rw [hf] at h
    have hm' : m' = { m with reactions := rs } := (Option.some.inj h).symm
    rw [hm']
    exact efluxFold_mem m.reactions rs hf

theorem scaleForExpr_bounds_ok (e : ℚ) (r : Reaction) (he : 0 ≤ e)
    (hr : r.lower_bound ≤ r.upper_bound)
    (hcond : e < 1 → r.lower_bound ≤ 0 ∧ 0 ≤ r.upper_bound) :
    (scaleForExpr e r).lower_bound ≤ (scaleForExpr e r).upper_bound := by
  by_cases hlt : e < 1
  · obtain ⟨hl, hu⟩ := hcond hlt
    unfold scaleForExpr
    rw [if_pos hlt]
    by_cases h1 : r.upper_bound > 0
    · rw [if_pos h1]
      by_cases h2 : r.lower_bound < 0
      · rw [if_pos (show ({ r with upper_bound := r.upper_bound * e } : Reaction).lower_bound < 0 from h2)]
        exact le_trans (mul_nonpos_iff.mpr (Or.inr ⟨le_of_lt h2, he⟩))
          (mul_nonneg (le_of_lt h1) he)
      · rw [if_neg (show ¬ ({ r with upper_bound := r.upper_bound * e } : Reaction).lower_bound < 0 from h2)]
        exact le_trans hl (mul_nonneg (le_of_lt h1) he)
    · rw [if_neg h1]
      by_cases h2 : r.lower_bound < 0
      · rw [if_pos h2]
        exact le_trans (mul_nonpos_iff.mpr (Or.inr ⟨le_of_lt h2, he⟩)) hu
      · rw [if_neg h2]
        exact hr
  · unfold scaleForExpr
    rw [if_neg hlt]
    exact hr

/-- C8 amended: the `lb ≤ ub` invariant is preserved by `apply_constraints`
provided every applied override itself leaves `lb ≤ ub` on the reaction it
names (as stated, an override may set any bounds and break it), and by the
E-Flux scaling step provided every scored reaction has a nonnegative score
and, when the score is below 1, bounds spanning zero (as stated, scaling
only one side of a same-sign bound pair can break it). -/
theorem c8_amended_invariant (m : NetworkModel) (hm : boundsOk m = true) :
    (∀ cs ks, (cs.map Prod.fst).Nodup →
       (∀ p ∈ cs, ∀ r ∈ m.reactions, r.id = p.1 →
          p.2.lb.getD r.lower_bound ≤ p.2.ub.getD r.upper_bound) →
       boundsOk (apply_constraints m cs ks) = true)
    ∧ (∀ fuel em m',
        (∀ r ∈ m.reactions, r.gene_reaction_rule ≠ [] → ∀ s,
           evaluate_gpr_expression fuel r.gene_reaction_rule em = some s →
           0 ≤ s ∧ (s < 1 → r.lower_bound ≤ 0 ∧ 0 ≤ r.upper_bound)) →
        efluxScaleModel fuel em m = some m' → boundsOk m' = true) := by
  rw [boundsOk, List.all_eq_true] at hm
  constructor
  · intro cs ks hnd hov
    rw [boundsOk, List.all_eq_true]
    intro r' hr'
    rw [apply_constraints_reactions] at hr'
    obtain ⟨r, hr, hre⟩ := List.mem_map.mp hr'
    cases h : lookupOv cs r.id with
    | none =>
      have hfold : overrideFold cs r = r := by
        have h0 := overrideFold_lookup cs r hnd
        rw [h] at h0
        exact h0
      rw [← hre, hfold]
      exact hm r hr
    | some o =>
      have hfold : overrideFold cs r = applyOverrideToReaction o r := by
        have h0 := overrideFold_lookup cs r hnd
        rw [h] at h0
        exact h0
      rw [← hre, hfold, applyOverride_eq]
      exact decide_eq_true (hov (r.id, o) (lookupOv_mem h) r hr rfl)
  · intro fuel em m' hsc hm'
    rw [boundsOk, List.all_eq_true]
    intro r' hr'
    obtain ⟨r, hr, hre⟩ := efluxScaleModel_mem hm' r' hr'
    rw [efluxScaleReaction] at hre
    by_cases hrule : r.gene_reaction_rule ≠ []
    · rw [if_pos hrule] at hre
      cases hev : evaluate_gpr_expression fuel r.gene_reaction_rule em with
      | none => rw [hev] at hre; exact Option.noConfusion hre
      | some s =>
        rw [hev, Option.map_some'] at hre
        rw [← Option.some.inj hre]
        obtain ⟨hs0, hscond⟩ := hsc r hr hrule s hev
        exact decide_eq_true (scaleForExpr_bounds_ok s r hs0
          (of_decide_eq_true (hm r hr)) hscond)
    · rw [if_neg hrule] at hre
      rw [← Option.some.inj hre]
      exact hm r hr

theorem c8_amended_witness :
    boundsOk (apply_constraints c8WModel
        [("R1".toList, ⟨some (mkRat (-1) 1), some (mkRat 4 1)⟩)] ["g".toList]) = true
    ∧ boundsOk c8WScaled = true := by
  have hb : boundsOk c8WModel = true := by with_unfolding_all decide
  have hev : evaluate_gpr_expression 5 "g".toList c8WEm = some (mkRat 1 2) := by
    with_unfolding_all decide
  constructor
  · apply (c8_amended_invariant c8WModel hb).1
    · with_unfolding_all decide
    · intro p hp r hr _hid
      have hp1 : p = ("R1".toList, (⟨some (mkRat (-1) 1), some (mkRat 4 1)⟩ : BoundOverride)) := by
        cases hp with
        | head => rfl
        | tail _ hmem => exact absurd hmem (List.not_mem_nil p)
      have hr1 : r = ⟨"R1".toList, mkRat (-10) 1, mkRat 5 1, "g".toList⟩ := by
        cases hr with
        | head => rfl
        | tail _ hmem => exact absurd hmem (List.not_mem_nil r)
      rw [hp1, hr1]
      with_unfolding_all decide
  · apply (c8_amended_invariant c8WModel hb).2 5 c8WEm c8WScaled
    · intro r hr _hrule s hs
      have hr1 : r = ⟨"R1".toList, mkRat (-10) 1, mkRat 5 1, "g".toList⟩ := by
        cases hr with
        | head => rfl
        | tail _ hmem => exact absurd hmem (List.not_mem_nil r)
      rw [hr1] at hs
      have hse : s = mkRat 1 2 := (Option.some.inj (hev.symm.trans hs)).symm
      rw [hse, hr1]
      refine ⟨by with_unfolding_all decide, fun _ => ⟨?_, ?_⟩⟩
      · with_unfolding_all decide
      · with_unfolding_all decide
    · with_unfolding_all decide

/-! ## C3: benchmark comparator -/

theorem fluxDiff_self (v : FluxVal) : fluxDiff v v = 0 := by
  cases v with
  | scalar a => simp [fluxDiff]
  | minmax mn mx => simp [fluxDiff]

theorem fluxCompare_zero_fold (fa : List (Str × FluxVal)) :
    ∀ (ks : List Str) (a b : ℚ) (c : Option Str), 0 ≤ b →
      ks.foldl (fun acc k =>
          let d := fluxDiff (lookupFlux fa k) (lookupFlux fa k)
          (acc.1 + d ^ 2, if acc.2.1 < d then (d, some k) else acc.2)) (a, b, c)
        = (a, b, c) := by
  intro ks
  induction ks with
  | nil => intro a b c _; rfl
  | cons k ks ih =>
    intro a b c hb
    rw [List.foldl_cons]
    have hd : fluxDiff (lookupFlux fa k) (lookupFlux fa k) = 0 := fluxDiff_self _
    simp only [hd]
    rw [show a + (0:ℚ) ^ 2 = a by ring_nf, if_neg (not_lt.mpr hb)]
    exact ih a b c hb

theorem fluxCompare_self (fa : List (Str × FluxVal)) : fluxCompare fa fa = (0, 0, none) := by
  unfold fluxCompare
  exact fluxCompare_zero_fold fa (commonKeys fa fa) 0 0 none (le_refl 0)

/-- C3: if either status is not optimal, `compare` fails with all numeric
fields null and a note naming both statuses; otherwise `obj_diff` is the
absolute objective difference, `obj_rel_diff` divides it by
`max(|a|,|b|,1e-10)`, and `passed` holds exactly when `obj_diff` is below
the 1e-6 tolerance (a large flux difference never flips it); comparing an
optimal result carrying a non-empty flux map with itself yields a zero
objective difference, a zero flux norm and a pass. -/
theorem c3_compare_spec (ra rb : BSolveResult) :
    ((ra.status ≠ "optimal".toList ∨ rb.status ≠ "optimal".toList) →
       (BenchmarkComparator.compare ra rb).passed = false
       ∧ (BenchmarkComparator.compare ra rb).obj_diff = none ∧ (BenchmarkComparator.compare ra rb).obj_rel_diff = none
       ∧ (BenchmarkComparator.compare ra rb).flux_l2_sq = none ∧ (BenchmarkComparator.compare ra rb).flux_max_diff = none
       ∧ (BenchmarkComparator.compare ra rb).flux_max_diff_rxn = none
       ∧ (BenchmarkComparator.compare ra rb).notes
           = "Non-optimal status: ".toList ++ ra.status ++ "/".toList ++ rb.status)
    ∧ (ra.status = "optimal".toList → rb.status = "optimal".toList →
       (BenchmarkComparator.compare ra rb).obj_diff
           = some |ra.objective_value.getD 0 - rb.objective_value.getD 0|
       ∧ (BenchmarkComparator.compare ra rb).obj_rel_diff
           = some (|ra.objective_value.getD 0 - rb.objective_value.getD 0|
               / max (max |ra.objective_value.getD 0| |rb.objective_value.getD 0|)
                   (mkRat 1 10000000000))
       ∧ ((BenchmarkComparator.compare ra rb).passed = true
            ↔ |ra.objective_value.getD 0 - rb.objective_value.getD 0| < OBJECTIVE_TOLERANCE))
    ∧ (ra.status = "optimal".toList → ∀ f, ra.fluxes = some f → f ≠ [] →
       (BenchmarkComparator.compare ra ra).obj_diff = some 0
       ∧ (BenchmarkComparator.compare ra ra).flux_l2_sq = some 0
       ∧ (BenchmarkComparator.compare ra ra).passed = true) := by
  refine ⟨?_, ?_, ?_⟩
  · intro h
    unfold BenchmarkComparator.compare
    rw [if_pos h]
    exact ⟨rfl, rfl, rfl, rfl, rfl, rfl, rfl⟩
  · intro ha hb
    have hcond : ¬ (ra.status ≠ "optimal".toList ∨ rb.status ≠ "optimal".toList) := by
      rw [not_or, not_not, not_not]
      exact ⟨ha, hb⟩
    unfold BenchmarkComparator.compare
    rw [if_neg hcond]
    refine ⟨rfl, rfl, ?_⟩
    exact decide_eq_true_iff
  · intro ha f hf hfne
    have hcond : ¬ (ra.status ≠ "optimal".toList ∨ ra.status ≠ "optimal".toList) := by
      simp only [not_or, not_not]
      exact ⟨ha, ha⟩
    have hck : commonKeys f f = f.map Prod.fst := by
      unfold commonKeys
      apply List.filter_eq_self.mpr
      intro k hk
      exact decide_eq_true hk
    have hckne : commonKeys f f ≠ [] := by
      rw [hck]
      intro hmap
      exact hfne (List.map_eq_nil_iff.mp hmap)
    have hflux :
        (match ra.fluxes, ra.fluxes with
          | some fa, some fb =>
            if fa ≠ [] ∧ fb ≠ [] ∧ commonKeys fa fb ≠ [] then some (fluxCompare fa fb) else none
          | _, _ => none) = some ((0 : ℚ), (0 : ℚ), (none : Option Str)) := by
      rw [hf]
      show (if f ≠ [] ∧ f ≠ [] ∧ commonKeys f f ≠ [] then some (fluxCompare f f) else none)
        = some ((0 : ℚ), (0 : ℚ), (none : Option Str))
      rw [if_pos ⟨hfne, hfne, hckne⟩, fluxCompare_self]
    have hod : |ra.objective_value.getD 0 - ra.objective_value.getD 0| = 0 := by
      rw [sub_self, abs_zero]
    unfold BenchmarkComparator.compare
    rw [if_neg hcond]
    simp only [hflux, hod, Option.map_some']
    have h0 : (0 : ℚ) < OBJECTIVE_TOLERANCE := by with_unfolding_all decide
    exact ⟨trivial, trivial, decide_eq_true h0⟩

theorem c3_witness :
    (BenchmarkComparator.compare c3OptResult c3BadResult).passed = false
    ∧ (BenchmarkComparator.compare c3OptResult c3OptResult).flux_l2_sq = some 0
    ∧ (BenchmarkComparator.compare c3OptResult c3OptResult).passed = true := by
  have hpart3 := (c3_compare_spec c3OptResult c3BadResult).2.2
    (by with_unfolding_all decide)
    [("R1".toList, FluxVal.scalar (mkRat 1 2)), ("R2".toList, FluxVal.scalar (mkRat 7 5))]
    rfl (by with_unfolding_all decide)
  exact ⟨((c3_compare_spec c3OptResult c3BadResult).1
    (Or.inr (by with_unfolding_all decide))).1, hpart3.2.1, hpart3.2.2⟩

/-! ## C1: GPR evaluation order -/

theorem lastIdxAux_eq_none {c : Char} {l : Str} : lastIdxAux c l = none ↔ c ∉ l := by
  induction l with
  | nil => simp [lastIdxAux]
  | cons x xs ih =>
    rw [lastIdxAux]
    cases h : lastIdxAux c xs with
    | some i =>
      simp only []
      constructor
      · intro hc
        exact Option.noConfusion hc
      · intro hc
        have : c ∈ xs := by
          by_contra hnx
          rw [ih.mpr hnx] at h
          exact Option.noConfusion h
        exact absurd (List.mem_cons_of_mem x this) hc
    | none =>
      simp only []
      by_cases hx : x = c
      · rw [if_pos hx]
        constructor
        · intro hc
          exact Option.noConfusion hc
        · intro hc
          exact absurd (hx ▸ List.mem_cons_self x xs) hc
      · rw [if_neg hx]
        constructor
        · intro _ hc
          cases List.mem_cons.mp hc with
          | inl he => exact hx he.symm
          | inr hm => exact (ih.mp h) hm
        · intro _
          rfl

theorem lastIdxAux_spec {c : Char} {l : Str} {i : Nat} (h : lastIdxAux c l = some i) :
    i < l.length ∧ c ∉ l.drop (i + 1) := by
  induction l generalizing i with
  | nil => exact Option.noConfusion h
  | cons x xs ih =>
    rw [lastIdxAux] at h
    cases h0 : lastIdxAux c xs with
    | some j =>
      rw [h0] at h
      have hij : i = j + 1 := (Option.some.inj h).symm
      obtain ⟨hlt, hnot⟩ := ih h0
      constructor
      · rw [hij, List.length_cons]
        omega
      · rw [hij]
        exact hnot
    | none =>
      rw [h0] at h
      by_cases hx : x = c
      · rw [if_pos hx] at h
        have hi0 : i = 0 := (Option.some.inj h).symm
        rw [hi0]
        exact ⟨Nat.succ_pos _, lastIdxAux_eq_none.mp h0⟩
      · rw [if_neg hx] at h
        exact Option.noConfusion h

/-- C1: the evaluator first resolves the innermost parenthesised segment
(the text between the last `(` and the next `)`, which contains no `(`),
recursively evaluating it and splicing the rendered scalar back; on a
paren-free expression an `" or "` occurrence (checked case-insensitively)
always splits on `" or "` and takes the max of the recursively evaluated
parts, and only with no `" or "` does an `" and "` occurrence split and
take the min; in particular the rule `(a and b) or c` under
a↦0.2, b↦0.8, c↦0.5 evaluates to 0.5. -/
theorem c1_or_splits_before_and :
    (∀ (m : GeneMap) (n : Nat) (e : Str) (start close : Nat),
       pyStrip e = e →
       lastIdxAux '(' e = some start →
       firstIdxFrom ')' start e = some close →
       evalExpr m (n + 1) e
         = ((evalExpr m n ((e.take close).drop (start + 1))).bind fun r =>
             evalExpr m n (e.take start ++ ratToStr r ++ e.drop (close + 1)))
       ∧ '(' ∉ (e.take close).drop (start + 1))
    ∧ (∀ (m : GeneMap) (n : Nat) (e : Str),
       pyStrip e = e → '(' ∉ e →
       containsSub orTok (pyLower e) = true →
       evalExpr m (n + 1) e = (evalMany m n (pySplit orTok (pyLower e))).bind pyMax)
    ∧ (∀ (m : GeneMap) (n : Nat) (e : Str),
       pyStrip e = e → '(' ∉ e →
       containsSub orTok (pyLower e) = false →
       containsSub andTok (pyLower e) = true →
       evalExpr m (n + 1) e = (evalMany m n (pySplit andTok (pyLower e))).bind pyMin)
    ∧ evaluate_gpr_expression 10 "(a and b) or c".toList mapABC = some (mkRat 1 2) := by
  refine ⟨?_, ?_, ?_, by with_unfolding_all decide⟩
  · intro m n e start close hstrip hlast hfirst
    constructor
    · simp only [evalExpr, hstrip, hlast, hfirst]
    · intro hmem
      rw [List.drop_take] at hmem
      have h1 : '(' ∈ e.drop (start + 1) := List.take_subset _ _ hmem
      exact (lastIdxAux_spec hlast).2 h1
  · intro m n e hstrip hnp hor
    have hn : lastIdxAux '(' e = none := lastIdxAux_eq_none.mpr hnp
    simp only [evalExpr, hstrip, hn, hor, if_true]
  · intro m n e hstrip hnp hor hand
    have hn : lastIdxAux '(' e = none := lastIdxAux_eq_none.mpr hnp
    simp only [evalExpr, hstrip, hn, hor, hand, if_true, Bool.false_eq_true, if_false]

theorem c1_witness :
    evalExpr mapABC 3 "a or b".toList
        = (evalMany mapABC 2 (pySplit orTok (pyLower "a or b".toList))).bind pyMax
    ∧ evalExpr mapABC 3 "a and b".toList
        = (evalMany mapABC 2 (pySplit andTok (pyLower "a and b".toList))).bind pyMin
    ∧ evalExpr mapABC 3 "(a)".toList
        = ((evalExpr mapABC 2 (("(a)".toList.take 2).drop 1)).bind fun r =>
            evalExpr mapABC 2 ("(a)".toList.take 0 ++ ratToStr r ++ "(a)".toList.drop 3)) :=
  ⟨c1_or_splits_before_and.2.1 mapABC 2 _ (by decide) (by decide) (by decide),
   c1_or_splits_before_and.2.2.1 mapABC 2 _ (by decide) (by decide) (by decide) (by decide),
   (c1_or_splits_before_and.1 mapABC 2 "(a)".toList 0 2 (by decide) (by decide) (by decide)).1⟩

/-! ## C5: evaluator robustness and the unmatched-parenthesis loop -/

theorem mem_of_getLast_some {l : Str} {c : Char} (h : l.getLast? = some c) : c ∈ l := by
  rw [List.getLast?_eq_head?_reverse] at h
  cases hr : l.reverse with
  | nil => rw [hr] at h; exact Option.noConfusion h
  | cons a t =>
    rw [hr] at h
    have ha : a = c := Option.some.inj h
    rw [← List.mem_reverse, hr, ha]
    exact List.mem_cons_self c t

theorem getLast_of_suffix {l t : Str} (h : t <:+ l) (hne : t ≠ []) :
    t.getLast? = l.getLast? := by
  obtain ⟨u, hu⟩ := h
  rw [← hu, List.getLast?_append]
  cases ht : t.getLast? with
  | none => exact absurd (List.getLast?_eq_none_iff.mp ht) hne
  | some a => rfl

theorem pyStrip_getLast {l : Str} {c : Char} (hc : isPySpace c = false)
    (h : l.getLast? = some c) : (pyStrip l).getLast? = some c := by
  have hdwne : l.dropWhile isPySpace ≠ [] := by
    intro h0
    have hall := List.dropWhile_eq_nil_iff.mp h0
    have := hall c (mem_of_getLast_some h)
    rw [hc] at this
    exact Bool.noConfusion this
  have h1 : (l.dropWhile isPySpace).getLast? = some c := by
    rw [getLast_of_suffix (List.dropWhile_suffix isPySpace) hdwne]
    exact h
  have hX : ((l.dropWhile isPySpace).reverse).head? = some c := by
    rw [List.head?_reverse]
    exact h1
  unfold pyStrip
  cases hXc : (l.dropWhile isPySpace).reverse with
  | nil => rw [hXc] at hX; exact Option.noConfusion hX
  | cons a t =>
    rw [hXc] at hX
    have ha : a = c := Option.some.inj hX
    have hstop : List.dropWhile isPySpace (a :: t) = a :: t := by
      rw [List.dropWhile_cons, ha, hc]
      simp only [Bool.false_eq_true, if_false]
    rw [hstop, ← hXc, List.reverse_reverse]
    exact h1

theorem evalExpr_unmatched_paren (m : GeneMap) :
    ∀ (n : Nat) (e : Str), (pyStrip e).getLast? = some '(' → evalExpr m n e = none := by
  intro n
  induction n with
  | zero =>
    intro e _
    simp only [evalExpr]
  | succ n ih =>
    intro e hend
    have hsne : pyStrip e ≠ [] := by
      intro h0
      rw [h0] at hend
      exact Option.noConfusion hend
    have hmem : '(' ∈ pyStrip e := mem_of_getLast_some hend
    have hne : lastIdxAux '(' (pyStrip e) ≠ none := fun h0 => (lastIdxAux_eq_none.mp h0) hmem
    obtain ⟨start, hstart⟩ := Option.ne_none_iff_exists'.mp hne
    obtain ⟨hlt, hnot⟩ := lastIdxAux_spec hstart
    have hstartlen : start + 1 = (pyStrip e).length := by
      by_contra hc
      have h2 : start + 1 < (pyStrip e).length := by omega
      have hdne : (pyStrip e).drop (start + 1) ≠ [] := by
        intro h0
        have := List.drop_eq_nil_iff.mp h0
        omega
      have hdl : ((pyStrip e).drop (start + 1)).getLast? = some '(' := by
        rw [getLast_of_suffix (List.drop_suffix (start + 1) (pyStrip e)) hdne]
        exact hend
      exact hnot (mem_of_getLast_some hdl)
    have hdropstart : (pyStrip e).drop start = ['('] := by
      have hlen1 : ((pyStrip e).drop start).length = 1 := by
        rw [List.length_drop]
        omega
      have hdne : (pyStrip e).drop start ≠ [] := by
        intro h0
        rw [h0] at hlen1
        exact Nat.noConfusion hlen1
      have hdl : ((pyStrip e).drop start).getLast? = some '(' := by
        rw [getLast_of_suffix (List.drop_suffix start (pyStrip e)) hdne]
        exact hend
      cases hd : (pyStrip e).drop start with
      | nil => exact absurd hd hdne
      | cons a t =>
        cases t with
        | nil =>
          rw [hd] at hdl
          have ha : a = '(' := by simpa using hdl
          rw [ha]
        | cons b u =>
          rw [hd] at hlen1
          simp only [List.length_cons] at hlen1
          omega
    have hfind : firstIdxFrom ')' start (pyStrip e) = none := by
      unfold firstIdxFrom
      rw [hdropstart]
      rfl
    simp only [evalExpr, hstart, hfind]
    cases hinner : evalExpr m n (((pyStrip e).take ((pyStrip e).length - 1)).drop (start + 1)) with
    | none => rw [Option.none_bind]
    | some r =>
      rw [Option.some_bind]
      apply ih
      apply pyStrip_getLast (by decide)
      rw [List.getLast?_append]
      rw [hend]
      rfl

/-- C5 counterexample: on the malformed rule `"("` the evaluator never
returns — the parenthesis-substitution loop re-appends the whole remaining
text each iteration — so `evaluate_gpr_expression` does not always produce
a value (the claim says every malformed rule yields 1.0). -/
theorem c5_counterexample : gprTerminates ['('] [] = False := by
  apply eq_false
  intro hterm
  obtain ⟨fuel, hfuel⟩ := hterm
  rw [evaluate_gpr_expression] at hfuel
  rw [if_neg (by decide)] at hfuel
  rw [evalExpr_unmatched_paren [] fuel ['('] (by decide)] at hfuel
  exact Bool.noConfusion hfuel

/-- C5 amended: a blank rule evaluates to 1.0; a paren-free token that is
neither a number nor an `and`/`or` compound is looked up in the map after
trimming whitespace, defaulting to 1.0 when absent (so `""` and
`"unknownGene"` both evaluate to 1.0); no reachable code path raises — but
evaluation is not total: a rule whose stripped text ends in an unmatched
`(` loops forever instead of yielding 1.0. -/
theorem c5_amended_defaults :
    (∀ (m : GeneMap) (fuel : Nat) (rule : Str), pyStrip rule = [] →
       evaluate_gpr_expression fuel rule m = some 1)
    ∧ (∀ (m : GeneMap) (n : Nat) (e : Str),
       pyStrip e = e → '(' ∉ e →
       containsSub orTok (pyLower e) = false →
       containsSub andTok (pyLower e) = false →
       pyFloat e = none →
       evalExpr m (n + 1) e = some ((lookupMap m (pyStrip e)).getD 1))
    ∧ evaluate_gpr_expression 3 "".toList [] = some 1
    ∧ evaluate_gpr_expression 3 "unknownGene".toList [] = some 1 := by
  refine ⟨?_, ?_, by with_unfolding_all decide, by with_unfolding_all decide⟩
  · intro m fuel rule hblank
    rw [evaluate_gpr_expression, if_pos hblank]
  · intro m n e hstrip hnp hor hand hfloat
    have hn : lastIdxAux '(' e = none := lastIdxAux_eq_none.mpr hnp
    simp only [evalExpr, hstrip, hn, hor, hand, hfloat, Bool.false_eq_true, if_false]
    rw [get_gene_expr, hstrip]

theorem c5_witness :
    evaluate_gpr_expression 7 "   ".toList mapABC = some 1
    ∧ evalExpr mapABC 4 "geneX".toList = some ((lookupMap mapABC (pyStrip "geneX".toList)).getD 1) :=
  ⟨c5_amended_defaults.1 mapABC 7 _ (by decide),
   c5_amended_defaults.2.1 mapABC 3 _ (by decide) (by decide) (by decide) (by decide)
     (by with_unfolding_all decide)⟩

/-! ## C10: lowercasing of compound rules -/

theorem charToNatOfNat (n : Nat) (h : n < 55296) : (Char.ofNat n).toNat = n := by
  simp [Char.ofNat, Char.toNat, Nat.isValidChar, h, Char.ofNatAux, UInt32.toNat,
    UInt32.toBitVec, BitVec.toNat_ofNatLt]

theorem lowerChar_lowerChar (c : Char) : lowerChar (lowerChar c) = lowerChar c := by
  unfold lowerChar
  by_cases h : 65 ≤ c.toNat ∧ c.toNat ≤ 90
  · rw [if_pos h]
    have h2 : (Char.ofNat (c.toNat + 32)).toNat = c.toNat + 32 :=
      charToNatOfNat _ (by omega)
    rw [if_neg (by rw [h2]; omega)]
  · rw [if_neg h, if_neg h]

theorem lowerChar_eq_paren {c : Char} (h : lowerChar c = '(') : c = '(' := by
  unfold lowerChar at h
  by_cases hc : 65 ≤ c.toNat ∧ c.toNat ≤ 90
  · rw [if_pos hc] at h
    have h2 : (Char.ofNat (c.toNat + 32)).toNat = c.toNat + 32 :=
      charToNatOfNat _ (by omega)
    have h4 := congrArg Char.toNat h
    rw [h2] at h4
    have h5 : ('(' : Char).toNat = 40 := by decide
    rw [h5] at h4
    omega
  · rw [if_neg hc] at h
    exact h

theorem map_fix_of_mem {f : Char → Char} :
    ∀ {l : Str}, l.map f = l → ∀ c ∈ l, f c = c := by
  intro l
  induction l with
  | nil => intro _ c hc; exact absurd hc (List.not_mem_nil c)
  | cons x xs ih =>
    intro h c hc
    rw [List.map_cons] at h
    have hx : f x = x := (List.cons.injEq _ _ _ _ ▸ h).1
    have hxs : xs.map f = xs := (List.cons.injEq _ _ _ _ ▸ h).2
    cases List.mem_cons.mp hc with
    | inl he => exact he ▸ hx
    | inr hm => exact ih hxs c hm

theorem map_fix_of_forall {f : Char → Char} :
    ∀ {l : Str}, (∀ c ∈ l, f c = c) → l.map f = l := by
  intro l
  induction l with
  | nil => intro _; rfl
  | cons x xs ih =>
    intro h
    rw [List.map_cons, h x (List.mem_cons_self x xs),
      ih fun c hc => h c (List.mem_cons_of_mem x hc)]

theorem pyLower_idem (l : Str) : pyLower (pyLower l) = pyLower l := by
  unfold pyLower
  rw [List.map_map]
  apply List.map_congr_left
  intro c _
  exact lowerChar_lowerChar c

theorem pyLower_fixed_of_subset {l x : Str} (hfix : pyLower l = l)
    (hsub : ∀ c ∈ x, c ∈ l) : pyLower x = x :=
  map_fix_of_forall fun c hc => map_fix_of_mem hfix c (hsub c hc)

theorem mem_pyStrip {l : Str} {c : Char} (h : c ∈ pyStrip l) : c ∈ l := by
  unfold pyStrip at h
  rw [List.mem_reverse] at h
  exact List.dropWhile_subset _ (List.mem_reverse.mp (List.dropWhile_subset _ h))

theorem mem_splitGo {sep : Str} :
    ∀ (n : Nat) (l acc part : Str), part ∈ splitGo sep n l acc →
      ∀ c ∈ part, c ∈ l ∨ c ∈ acc := by
  intro n
  induction n with
  | zero =>
    intro l acc part hp c hc
    rw [splitGo] at hp
    have hpe : part = acc.reverse ++ l := by
      cases List.mem_cons.mp hp with
      | inl h => exact h
      | inr h => exact absurd h (List.not_mem_nil part)
    rw [hpe] at hc
    cases List.mem_append.mp hc with
    | inl h => exact Or.inr (List.mem_reverse.mp h)
    | inr h => exact Or.inl h
  | succ n ih =>
    intro l acc part hp c hc
    cases l with
    | nil =>
      rw [splitGo] at hp
      have hpe : part = acc.reverse := by
        cases List.mem_cons.mp hp with
        | inl h => exact h
        | inr h => exact absurd h (List.not_mem_nil part)
      rw [hpe] at hc
      exact Or.inr (List.mem_reverse.mp hc)
    | cons x rest =>
      rw [splitGo] at hp
      by_cases hpre : sep.isPrefixOf (x :: rest) = true
      · rw [if_pos hpre] at hp
        cases List.mem_cons.mp hp with
        | inl h =>
          rw [h] at hc
          exact Or.inr (List.mem_reverse.mp hc)
        | inr h =>
          cases ih _ [] part h c hc with
          | inl hm => exact Or.inl (List.drop_subset _ _ hm)
          | inr hm => exact absurd hm (List.not_mem_nil c)
      · rw [if_neg hpre] at hp
        cases ih rest (x :: acc) part hp c hc with
        | inl hm => exact Or.inl (List.mem_cons_of_mem x hm)
        | inr hm =>
          cases List.mem_cons.mp hm with
          | inl he => exact Or.inl (he ▸ List.mem_cons_self x rest)
          | inr ha => exact Or.inr ha

theorem mem_pySplit {sep l part : Str} (h : part ∈ pySplit sep l) {c : Char}
    (hc : c ∈ part) : c ∈ l := by
  cases mem_splitGo (l.length + 1) l [] part h c hc with
  | inl hm => exact hm
  | inr hm => exact absurd hm (List.not_mem_nil c)

theorem evalMany_congr {m1 m2 : GeneMap} {n : Nat} :
    ∀ {ps : List Str}, (∀ p ∈ ps, evalExpr m1 n p = evalExpr m2 n p) →
      evalMany m1 n ps = evalMany m2 n ps := by
  intro ps
  induction ps with
  | nil => intro _; simp only [evalMany]
  | cons p ps ih =>
    intro h
    simp only [evalMany]
    rw [h p (List.mem_cons_self p ps), ih fun q hq => h q (List.mem_cons_of_mem p hq)]

theorem paren_notin_pyLower {s : Str} (h : '(' ∉ s) : '(' ∉ pyLower s := by
  intro hm
  obtain ⟨c, hc, hce⟩ := List.mem_map.mp hm
  exact h (lowerChar_eq_paren hce ▸ hc)

theorem evalExpr_lc_agree (m1 m2 : GeneMap) (hag : lcKeysAgree m1 m2) :
    ∀ (n : Nat) (e : Str), '(' ∉ e → pyLower e = e →
      evalExpr m1 n e = evalExpr m2 n e := by
  intro n
  induction n with
  | zero => intro e _ _; simp only [evalExpr]
  | succ n ih =>
    intro e hnp hlow
    have hsub : ∀ c ∈ pyStrip e, c ∈ e := fun c hc => mem_pyStrip hc
    have hnp' : '(' ∉ pyStrip e := fun h => hnp (mem_pyStrip h)
    have hlow' : pyLower (pyStrip e) = pyStrip e := pyLower_fixed_of_subset hlow hsub
    have hn : lastIdxAux '(' (pyStrip e) = none := lastIdxAux_eq_none.mpr hnp'
    have hlowlow : pyLower (pyLower (pyStrip e)) = pyLower (pyStrip e) := pyLower_idem _
    have hparts : ∀ tok, ∀ p ∈ pySplit tok (pyLower (pyStrip e)),
        evalExpr m1 n p = evalExpr m2 n p := by
      intro tok p hp
      apply ih
      · intro hcp
        exact paren_notin_pyLower hnp' (mem_pySplit hp hcp)
      · exact pyLower_fixed_of_subset hlowlow fun c hc => mem_pySplit hp hc
    simp only [evalExpr, hn]
    by_cases hor : containsSub orTok (pyLower (pyStrip e)) = true
    · rw [if_pos hor, if_pos hor, evalMany_congr (hparts orTok)]
    · rw [if_neg hor, if_neg hor]
      by_cases hand : containsSub andTok (pyLower (pyStrip e)) = true
      · rw [if_pos hand, if_pos hand, evalMany_congr (hparts andTok)]
      · rw [if_neg hand, if_neg hand]
        cases hf : pyFloat (pyStrip e) with
        | some v => rfl
        | none =>
          have hk : pyLower (pyStrip (pyStrip e)) = pyStrip (pyStrip e) :=
            pyLower_fixed_of_subset hlow' fun c hc => mem_pyStrip hc
          simp only [get_gene_expr, hag _ hk]

/-- C10 counterexample: the two maps agree on every all-lowercase key, yet
the compound rule `(GeneA) and b` evaluates differently under them — a
parenthesised bare gene id is looked up case-sensitively before the
lowercased splitting ever sees it — so a compound rule's result does not
depend only on the map's entries under lowercased gene ids. -/
theorem c10_counterexample :
    lcKeysAgree mapGeneA []
    ∧ evaluate_gpr_expression 10 "(GeneA) and b".toList mapGeneA = some (mkRat 3 10)
    ∧ evaluate_gpr_expression 10 "(GeneA) and b".toList [] = some 1
    ∧ mkRat 3 10 ≠ (1 : ℚ) := by
  refine ⟨?_, by with_unfolding_all decide, by with_unfolding_all decide,
    by with_unfolding_all decide⟩
  intro k hk
  show (if "GeneA".toList = k then some (mkRat 3 10) else lookupMap [] k) = lookupMap [] k
  rw [if_neg]
  intro he
  rw [← he] at hk
  have : pyLower "GeneA".toList ≠ "GeneA".toList := by with_unfolding_all decide
  exact this hk

/-- C10 amended: whenever a paren-free (sub-)expression contains an
`and`/`or` connective, the whole text is lowercased before splitting, so
the result of evaluating it depends only on the map's entries under
all-lowercase keys; a rule reaching the bare-token case — also a
parenthesised single gene inside a larger rule — is looked up
case-sensitively as written, which is the only exception to the claimed
lowercase dependence. -/
theorem c10_amended_lowercase_scope :
    (∀ (m1 m2 : GeneMap), lcKeysAgree m1 m2 →
       ∀ (n : Nat) (e : Str), '(' ∉ e → pyLower e = e →
         evalExpr m1 n e = evalExpr m2 n e)
    ∧ (∀ (m : GeneMap) (n : Nat) (e : Str),
       pyStrip e = e → '(' ∉ e →
       containsSub orTok (pyLower e) = false →
       containsSub andTok (pyLower e) = false →
       pyFloat e = none →
       evalExpr m (n + 1) e = some (get_gene_expr m e)) := by
  constructor
  · exact fun m1 m2 hag n e hnp hlow => evalExpr_lc_agree m1 m2 hag n e hnp hlow
  · intro m n e hstrip hnp hor hand hfloat
    have hn : lastIdxAux '(' e = none := lastIdxAux_eq_none.mpr hnp
    simp only [evalExpr, hstrip, hn, hor, hand, hfloat, Bool.false_eq_true, if_false]

theorem c10_witness :
    evalExpr [("b".toList, mkRat 1 4)] 5 "genea and b".toList
      = evalExpr [("b".toList, mkRat 1 4), ("GeneA".toList, mkRat 3 10)] 5
          "genea and b".toList
    ∧ evalExpr mapGeneA 4 "GeneA".toList = some (get_gene_expr mapGeneA "GeneA".toList) := by
  constructor
  · apply c10_amended_lowercase_scope.1
    · intro k hk
      show lookupMap [("b".toList, mkRat 1 4)] k
        = lookupMap [("b".toList, mkRat 1 4), ("GeneA".toList, mkRat 3 10)] k
      by_cases hb : "b".toList = k
      · show (if "b".toList = k then some (mkRat 1 4) else lookupMap [] k)
          = (if "b".toList = k then some (mkRat 1 4) else
              lookupMap [("GeneA".toList, mkRat 3 10)] k)
        rw [if_pos hb, if_pos hb]
      · show (if "b".toList = k then some (mkRat 1 4) else lookupMap [] k)
          = (if "b".toList = k then some (mkRat 1 4) else
              lookupMap [("GeneA".toList, mkRat 3 10)] k)
        rw [if_neg hb, if_neg hb]
        show lookupMap [] k = (if "GeneA".toList = k then some (mkRat 3 10) else lookupMap [] k)
        rw [if_neg]
        intro he
        rw [← he] at hk
        have : pyLower "GeneA".toList ≠ "GeneA".toList := by with_unfolding_all decide
        exact this hk
    · with_unfolding_all decide
    · with_unfolding_all decide
  · exact c10_amended_lowercase_scope.2 mapGeneA 3 _ (by decide) (by decide)
      (by with_unfolding_all decide) (by with_unfolding_all decide)
      (by with_unfolding_all decide)

/-! ## C9: stratified sampling -/

theorem sampleIdx_eq_div (flen limit i : Nat) :
    sampleIdx flen limit i = i * flen / limit := by
  unfold sampleIdx
  have h1 : (i : ℚ) * ((flen : ℚ) / (limit : ℚ))
      = (((i * flen : ℕ) : ℤ) : ℚ) / ((limit : ℕ) : ℚ) := by push_cast; ring
  have h2 : ((i : ℚ) * ((flen : ℚ) / (limit : ℚ))).floor
      = ⌊(i : ℚ) * ((flen : ℚ) / (limit : ℚ))⌋ := rfl
  rw [h2, h1, Rat.floor_intCast_div_natCast]
  rw [show ((i * flen : ℕ) : ℤ) / ((limit : ℕ) : ℤ) = (((i * flen) / limit : ℕ) : ℤ) from
    ((Int.natCast_div _ _).symm ▸ rfl)]
  exact Int.toNat_natCast _

theorem gbm_of_le (catalog : List ModelInfo) (minr maxr limit : Nat)
    (h : (filteredSorted catalog minr maxr).length ≤ limit) :
    get_benchmark_models catalog minr maxr limit = filteredSorted catalog minr maxr := by
  unfold get_benchmark_models
  rw [if_pos h]

theorem gbm_of_gt (catalog : List ModelInfo) (minr maxr limit : Nat)
    (h : limit < (filteredSorted catalog minr maxr).length) :
    get_benchmark_models catalog minr maxr limit
      = (List.range limit).map fun i =>
          (filteredSorted catalog minr maxr).getD
            (i * (filteredSorted catalog minr maxr).length / limit) dfltModelInfo := by
  unfold get_benchmark_models
  rw [if_neg (not_le.mpr h)]
  apply List.map_congr_left
  intro i _hi
  rw [sampleIdx_eq_div]

theorem mul_thousand_div_hundred (i : Nat) : i * 1000 / 100 = 10 * i := by
  rw [show i * 1000 = 10 * i * 100 by ring]
  exact Nat.mul_div_cancel _ (by norm_num)

/-- C9: when the size-filtered, size-sorted candidate list fits within the
limit it is returned whole; otherwise the selection consists of the entries
at indices `floor(i * filteredCount / limit)` for `i = 0 .. limit-1`
(Python's float step arithmetic modelled as exact rational arithmetic); in
particular with 1000 filtered candidates of pairwise increasing size and a
limit of 100 the selection has exactly 100 entries, strictly increasing in
size, starting at sorted index 0 and ending at sorted index 990. -/
theorem c9_stratified_sampling :
    (∀ (catalog : List ModelInfo) (minr maxr limit : Nat),
       (filteredSorted catalog minr maxr).length ≤ limit →
       get_benchmark_models catalog minr maxr limit = filteredSorted catalog minr maxr)
    ∧ (∀ (catalog : List ModelInfo) (minr maxr limit : Nat),
       limit < (filteredSorted catalog minr maxr).length →
       get_benchmark_models catalog minr maxr limit
         = (List.range limit).map fun i =>
             (filteredSorted catalog minr maxr).getD
               (i * (filteredSorted catalog minr maxr).length / limit) dfltModelInfo)
    ∧ (∀ (catalog : List ModelInfo) (minr maxr : Nat),
       (filteredSorted catalog minr maxr).length = 1000 →
       ((filteredSorted catalog minr maxr).map (fun m => m.reaction_count)).Chain' (· < ·) →
       (get_benchmark_models catalog minr maxr 100).length = 100
       ∧ ((get_benchmark_models catalog minr maxr 100).map
            (fun m => m.reaction_count)).Chain' (· < ·)
       ∧ (get_benchmark_models catalog minr maxr 100).head?
           = some ((filteredSorted catalog minr maxr).getD 0 dfltModelInfo)
       ∧ (get_benchmark_models catalog minr maxr 100).getLast?
           = some ((filteredSorted catalog minr maxr).getD 990 dfltModelInfo)) := by
  refine ⟨gbm_of_le, gbm_of_gt, ?_⟩
  intro catalog minr maxr hlen hchain
  have hgt : (100 : Nat) < (filteredSorted catalog minr maxr).length := by omega
  have heq := gbm_of_gt catalog minr maxr 100 hgt
  rw [hlen] at heq
  have hidx : ∀ i : Nat, i * 1000 / 100 = 10 * i := mul_thousand_div_hundred
  have hpw : ((filteredSorted catalog minr maxr).map (fun m => m.reaction_count)).Pairwise
      (· < ·) := List.chain'_iff_pairwise.mp hchain
  refine ⟨?_, ?_, ?_, ?_⟩
  · rw [heq, List.length_map, List.length_range]
  · rw [heq, List.map_map]
    rw [show (100 : Nat) = Nat.succ 99 from rfl]
    rw [List.chain'_map]
    rw [List.chain'_range_succ]
    intro m hm
    have hml : 10 * m < (filteredSorted catalog minr maxr).length := by omega
    have hml' : 10 * Nat.succ m < (filteredSorted catalog minr maxr).length := by omega
    rw [Function.comp_apply, Function.comp_apply, hidx, hidx]
    rw [List.getD_eq_getElem _ _ hml, List.getD_eq_getElem _ _ hml']
    have := List.pairwise_iff_getElem.mp hpw (10 * m) (10 * Nat.succ m)
      (by rw [List.length_map]; omega) (by rw [List.length_map]; omega) (by omega)
    rw [List.getElem_map, List.getElem_map] at this
    exact this
  · rw [heq, List.head?_map, show (List.range 100).head? = some 0 from by decide]
    rw [Option.map_some', Nat.zero_mul, Nat.zero_div]
  · rw [heq, List.getLast?_map, show (List.range 100).getLast? = some 99 from by decide]
    rw [Option.map_some', show (99 : Nat) * 1000 / 100 = 990 from by norm_num]

theorem sortByCount_of_chain :
    ∀ {l : List ModelInfo},
      (l.map (fun m => m.reaction_count)).Chain' (· ≤ ·) → sortByCount l = l := by
  intro l
  induction l with
  | nil => intro _; rfl
  | cons a t ih =>
    intro h
    rw [List.map_cons] at h
    have ht : (t.map (fun m => m.reaction_count)).Chain' (· ≤ ·) := h.tail
    rw [sortByCount, ih ht]
    cases t with
    | nil => rfl
    | cons b u =>
      have hab : a.reaction_count ≤ b.reaction_count := by
        rw [List.map_cons] at h
        exact (List.chain'_cons.mp h).1
      rw [insertByCount, if_neg (not_lt.mpr hab)]

theorem c9Catalog_counts :
    c9Catalog.map (fun m => m.reaction_count) = (List.range 1000).map (fun i => i + 10) := by
  unfold c9Catalog
  rw [List.map_map]
  apply List.map_congr_left
  intro i _
  rfl

theorem c9Catalog_filteredSorted : filteredSorted c9Catalog 10 5000 = c9Catalog := by
  unfold filteredSorted
  have hfilter : c9Catalog.filter (fun m =>
      decide (10 ≤ m.reaction_count) && decide (m.reaction_count ≤ 5000)) = c9Catalog := by
    apply List.filter_eq_self.mpr
    intro m hm
    obtain ⟨i, hi, hie⟩ := List.mem_map.mp hm
    rw [List.mem_range] at hi
    rw [← hie]
    have h1 : (10 : Nat) ≤ i + 10 := by omega
    have h2 : i + 10 ≤ 5000 := by omega
    rw [Bool.and_eq_true, decide_eq_true_eq, decide_eq_true_eq]
    exact ⟨h1, h2⟩
  rw [hfilter]
  apply sortByCount_of_chain
  rw [c9Catalog_counts]
  rw [show (1000 : Nat) = Nat.succ 999 from by omega, List.chain'_map, List.chain'_range_succ]
  intro m _
  omega

theorem c9Catalog_chain :
    ((filteredSorted c9Catalog 10 5000).map (fun m => m.reaction_count)).Chain' (· < ·) := by
  rw [c9Catalog_filteredSorted, c9Catalog_counts]
  rw [show (1000 : Nat) = Nat.succ 999 from by omega, List.chain'_map, List.chain'_range_succ]
  intro m _
  omega

set_option maxRecDepth 8000 in
theorem c9_witness :
    (get_benchmark_models c9Catalog 10 5000 100).length = 100
    ∧ (get_benchmark_models c9Catalog 10 5000 100).head?
        = some ((filteredSorted c9Catalog 10 5000).getD 0 dfltModelInfo)
    ∧ (get_benchmark_models c9Catalog 10 5000 100).getLast?
        = some ((filteredSorted c9Catalog 10 5000).getD 990 dfltModelInfo) := by
  have hlen : (filteredSorted c9Catalog 10 5000).length = 1000 := by
    rw [c9Catalog_filteredSorted]
    unfold c9Catalog
    rw [List.length_map, List.length_range]
  have h0 := c9_stratified_sampling.2.2 c9Catalog 10 5000 hlen
  have hc := c9Catalog_chain
  have h := h0 hc
  exact ⟨h.1, h.2.2.1, h.2.2.2⟩

/-! ## C2: endpoint error discipline -/

theorem statusStr_mem_okStatuses (st : OptStatus) : statusStr st ∈ okStatuses := by
  cases st <;> simp [statusStr, okStatuses]

theorem statusStr_ne_error (st : OptStatus) : statusStr st ≠ "error".toList := by
  cases st <;> decide

/-- C2: each formulation endpoint is a total function of its inputs and the
outcomes of its external calls — it never re-raises.  When model building
or the optimizer call raises, the returned response has status `"error"`
and carries the exception message (GIMME additionally converts its own
`ValueError` for a non-optimal baseline into that path); when nothing
raises, the response carries exactly the optimizer-reported status, which
is one of optimal/infeasible/unbounded and never `"error"` (FVA succeeds
only when its internal solves were optimal and reports the literal
`"optimal"`).  The conjuncts enumerate every outcome of every external
call of each endpoint: model build, each optimizer/analysis call — for FVA
also the final `model.optimize()`, for MOMA both the supplied-reference
and the default wild-type-reference branches, for GIMME also the penalty
reformulation solve.  (A diverging GPR evaluation in the omics endpoints
is non-termination, `none`, not an exception.) -/
theorem c2_endpoints_never_raise :
    (∀ st : OptStatus, statusStr st ∈ okStatuses ∧ statusStr st ≠ "error".toList)
    ∧ (∀ method sol, (okResponse method sol).status = statusStr sol.status
        ∧ (okResponse method sol).error = none)
    ∧ (∀ method e, (errorResponse method e).status = "error".toList
        ∧ (errorResponse method e).error = some e)
    -- FBA
    ∧ (∀ cs ks obj opt e,
        solve_fba (.error e) cs ks obj opt = errorResponse "fba".toList e)
    ∧ (∀ m cs ks obj opt e,
        opt (setObjective obj (apply_constraints m cs ks)) = .error e →
        solve_fba (.ok m) cs ks obj opt = errorResponse "fba".toList e)
    ∧ (∀ m cs ks obj opt sol,
        opt (setObjective obj (apply_constraints m cs ks)) = .ok sol →
        solve_fba (.ok m) cs ks obj opt = okResponse "fba".toList sol)
    -- pFBA
    ∧ (∀ cs ks obj pfbaCall e,
        solve_pfba (.error e) cs ks obj pfbaCall = errorResponse "pfba".toList e)
    ∧ (∀ m cs ks obj pfbaCall e,
        pfbaCall (setObjective obj (apply_constraints m cs ks)) = .error e →
        solve_pfba (.ok m) cs ks obj pfbaCall = errorResponse "pfba".toList e)
    ∧ (∀ m cs ks obj pfbaCall sol,
        pfbaCall (setObjective obj (apply_constraints m cs ks)) = .ok sol →
        solve_pfba (.ok m) cs ks obj pfbaCall = okResponse "pfba".toList sol)
    -- FVA
    ∧ (∀ cs ks frac rxns fvaCall opt e,
        solve_fva (.error e) cs ks frac rxns fvaCall opt
          = ⟨"error".toList, none, [], some e⟩)
    ∧ (∀ m cs ks frac rxns fvaCall opt e,
        fvaCall (apply_constraints m cs ks) frac
            (fvaReactionSel rxns (apply_constraints m cs ks)) = .error e →
        solve_fva (.ok m) cs ks frac rxns fvaCall opt
          = ⟨"error".toList, none, [], some e⟩)
    ∧ (∀ m cs ks frac rxns fvaCall opt ranges e,
        fvaCall (apply_constraints m cs ks) frac
            (fvaReactionSel rxns (apply_constraints m cs ks)) = .ok ranges →
        opt (apply_constraints m cs ks) = .error e →
        solve_fva (.ok m) cs ks frac rxns fvaCall opt
          = ⟨"error".toList, none, [], some e⟩)
    ∧ (∀ m cs ks frac rxns fvaCall opt ranges sol,
        fvaCall (apply_constraints m cs ks) frac
            (fvaReactionSel rxns (apply_constraints m cs ks)) = .ok ranges →
        opt (apply_constraints m cs ks) = .ok sol →
        solve_fva (.ok m) cs ks frac rxns fvaCall opt
          = ⟨"optimal".toList, some sol.objective_value, ranges, none⟩)
    -- MOMA
    ∧ (∀ cs ks ref wtOpt momaCall e,
        solve_moma (.error e) cs ks ref wtOpt momaCall = errorResponse "moma".toList e)
    ∧ (∀ m cs ks wtOpt momaCall e,
        wtOpt m = .error e →
        solve_moma (.ok m) cs ks none wtOpt momaCall = errorResponse "moma".toList e)
    ∧ (∀ m cs ks wtOpt momaCall wt e,
        wtOpt m = .ok wt →
        momaCall (apply_constraints m cs ks) wt.fluxes = .error e →
        solve_moma (.ok m) cs ks none wtOpt momaCall = errorResponse "moma".toList e)
    ∧ (∀ m cs ks wtOpt momaCall wt sol,
        wtOpt m = .ok wt →
        momaCall (apply_constraints m cs ks) wt.fluxes = .ok sol →
        solve_moma (.ok m) cs ks none wtOpt momaCall = okResponse "moma".toList sol)
    ∧ (∀ m cs ks f wtOpt momaCall e,
        momaCall (apply_constraints m cs ks) f = .error e →
        solve_moma (.ok m) cs ks (some f) wtOpt momaCall = errorResponse "moma".toList e)
    ∧ (∀ m cs ks f wtOpt momaCall sol,
        momaCall (apply_constraints m cs ks) f = .ok sol →
        solve_moma (.ok m) cs ks (some f) wtOpt momaCall = okResponse "moma".toList sol)
    -- GIMME
    ∧ (∀ fuel em th rf opt gopt e,
        solve_gimme (.error e) fuel em th rf opt gopt
          = some (errorResponse "gimme".toList e))
    ∧ (∀ m fuel em th rf opt gopt scores e,
        reactionScores fuel em m = some scores →
        opt m = .error e →
        solve_gimme (.ok m) fuel em th rf opt gopt
          = some (errorResponse "gimme".toList e))
    ∧ (∀ m fuel em th rf opt gopt scores sol1,
        reactionScores fuel em m = some scores →
        opt m = .ok sol1 → sol1.status ≠ OptStatus.optimal →
        solve_gimme (.ok m) fuel em th rf opt gopt
          = some (errorResponse "gimme".toList
              ("Model infeasible: ".toList ++ statusStr sol1.status)))
    ∧ (∀ m fuel em th rf opt gopt scores sol1 e,
        reactionScores fuel em m = some scores →
        opt m = .ok sol1 → sol1.status = OptStatus.optimal →
        gopt m (gimmeWeights th scores) (rf * sol1.objective_value) = .error e →
        solve_gimme (.ok m) fuel em th rf opt gopt
          = some (errorResponse "gimme".toList e))
    ∧ (∀ m fuel em th rf opt gopt scores sol1 sol2,
        reactionScores fuel em m = some scores →
        opt m = .ok sol1 → sol1.status = OptStatus.optimal →
        gopt m (gimmeWeights th scores) (rf * sol1.objective_value) = .ok sol2 →
        solve_gimme (.ok m) fuel em th rf opt gopt
          = some (okResponse "gimme".toList sol2))
    -- iMAT
    ∧ (∀ fuel em hi lo iopt e,
        solve_imat (.error e) fuel em hi lo iopt = some (errorResponse "imat".toList e))
    ∧ (∀ m fuel em hi lo iopt scores e,
        reactionScores fuel em
            { m with reactions := m.reactions.filter fun r => r.gene_reaction_rule ≠ [] }
          = some scores →
        iopt m (imatClassify hi lo scores).1 (imatClassify hi lo scores).2 = .error e →
        solve_imat (.ok m) fuel em hi lo iopt = some (errorResponse "imat".toList e))
    ∧ (∀ m fuel em hi lo iopt scores sol,
        reactionScores fuel em
            { m with reactions := m.reactions.filter fun r => r.gene_reaction_rule ≠ [] }
          = some scores →
        iopt m (imatClassify hi lo scores).1 (imatClassify hi lo scores).2 = .ok sol →
        solve_imat (.ok m) fuel em hi lo iopt = some (okResponse "imat".toList sol))
    -- E-Flux
    ∧ (∀ fuel em opt e,
        solve_eflux (.error e) fuel em opt = some (errorResponse "eflux".toList e))
    ∧ (∀ m fuel em opt m1 e,
        efluxScaleModel fuel em m = some m1 →
        opt m1 = .error e →
        solve_eflux (.ok m) fuel em opt = some (errorResponse "eflux".toList e))
    ∧ (∀ m fuel em opt m1 sol,
        efluxScaleModel fuel em m = some m1 →
        opt m1 = .ok sol →
        solve_eflux (.ok m) fuel em opt = some (okResponse "eflux".toList sol)) := by
  refine ⟨fun st => ⟨statusStr_mem_okStatuses st, statusStr_ne_error st⟩,
    fun method sol => ⟨rfl, rfl⟩, fun method e => ⟨rfl, rfl⟩,
    ?_, ?_, ?_, ?_, ?_, ?_, ?_, ?_, ?_, ?_, ?_, ?_, ?_, ?_, ?_, ?_, ?_, ?_, ?_, ?_, ?_, ?_, ?_,
    ?_, ?_, ?_, ?_⟩
  · intro cs ks obj opt e
    rfl
  · intro m cs ks obj opt e h
    simp [solve_fba, fbaBody, h, Bind.bind, Except.bind, Functor.map, Except.map, pure, Except.pure]
  · intro m cs ks obj opt sol h
    simp [solve_fba, fbaBody, h, Bind.bind, Except.bind, Functor.map, Except.map, pure, Except.pure, okResponse]
  · intro cs ks obj pfbaCall e
    rfl
  · intro m cs ks obj pfbaCall e h
    simp [solve_pfba, pfbaBody, h, Bind.bind, Except.bind, Functor.map, Except.map, pure, Except.pure]
  · intro m cs ks obj pfbaCall sol h
    simp [solve_pfba, pfbaBody, h, Bind.bind, Except.bind, Functor.map, Except.map, pure, Except.pure, okResponse]
  · intro cs ks frac rxns fvaCall opt e
    rfl
  · intro m cs ks frac rxns fvaCall opt e h
    simp only [solve_fva, fvaBody, Bind.bind, Except.bind, Functor.map, Except.map, pure,
      Except.pure]
    rw [h]
  · intro m cs ks frac rxns fvaCall opt ranges e h1 h2
    simp only [solve_fva, fvaBody, Bind.bind, Except.bind, Functor.map, Except.map, pure,
      Except.pure]
    rw [h1, h2]
  · intro m cs ks frac rxns fvaCall opt ranges sol h1 h2
    simp only [solve_fva, fvaBody, Bind.bind, Except.bind, Functor.map, Except.map, pure,
      Except.pure]
    rw [h1, h2]
  · intro cs ks ref wtOpt momaCall e
    rfl
  · intro m cs ks wtOpt momaCall e h
    simp [solve_moma, momaBody, h, Bind.bind, Except.bind, Functor.map, Except.map, pure, Except.pure]
  · intro m cs ks wtOpt momaCall wt e h1 h2
    simp [solve_moma, momaBody, h1, h2, Bind.bind, Except.bind, Functor.map, Except.map, pure,
      Except.pure]
  · intro m cs ks wtOpt momaCall wt sol h1 h2
    simp [solve_moma, momaBody, h1, h2, Bind.bind, Except.bind, Functor.map, Except.map, pure,
      Except.pure, okResponse]
  · intro m cs ks f wtOpt momaCall e h
    simp [solve_moma, momaBody, h, Bind.bind, Except.bind, Functor.map, Except.map, pure, Except.pure]
  · intro m cs ks f wtOpt momaCall sol h
    simp [solve_moma, momaBody, h, Bind.bind, Except.bind, Functor.map, Except.map, pure, Except.pure, okResponse]
  · intro fuel em th rf opt gopt e
    rfl
  · intro m fuel em th rf opt gopt scores e h1 h2
    simp [solve_gimme, gimmeBody, h1, h2, Bind.bind, Except.bind, Functor.map, Except.map, pure, Except.pure]
  · intro m fuel em th rf opt gopt scores sol1 h1 h2 h3
    simp [solve_gimme, gimmeBody, h1, h2, h3, Bind.bind, Except.bind, Functor.map, Except.map, pure, Except.pure]
  · intro m fuel em th rf opt gopt scores sol1 e h1 h2 h3 h4
    simp [solve_gimme, gimmeBody, h1, h2, h3, h4, Bind.bind, Except.bind, Functor.map, Except.map,
      pure, Except.pure]
  · intro m fuel em th rf opt gopt scores sol1 sol2 h1 h2 h3 h4
    simp [solve_gimme, gimmeBody, h1, h2, h3, h4, Bind.bind, Except.bind, Functor.map, Except.map, pure, Except.pure, okResponse]
  · intro fuel em hi lo iopt e
    rfl
  · intro m fuel em hi lo iopt scores e h1 h2
    simp only [solve_imat, imatBody, h1, h2, Option.map_some', Bind.bind, Except.bind, pure,
      Except.pure]
  · intro m fuel em hi lo iopt scores sol h1 h2
    simp only [solve_imat, imatBody, h1, h2, Option.map_some', Bind.bind, Except.bind, pure,
      Except.pure]
  · intro fuel em opt e
    rfl
  · intro m fuel em opt m1 e h1 h2
    simp [solve_eflux, efluxBody, h1, h2, Bind.bind, Except.bind, Functor.map, Except.map, pure, Except.pure]
  · intro m fuel em opt m1 sol h1 h2
    simp [solve_eflux, efluxBody, h1, h2, Bind.bind, Except.bind, Functor.map, Except.map, pure, Except.pure, okResponse]

theorem c2_witness :
    solve_fba (.ok c8Model) [] [] none (fun _ => .error "boom".toList)
      = errorResponse "fba".toList "boom".toList
    ∧ solve_gimme (.ok c8Model) 3 [] (mkRat 1 4) (mkRat 9 10)
        (fun _ => .ok ⟨.infeasible, 0, []⟩) (fun _ _ _ => .ok ⟨.optimal, 0, []⟩)
      = some (errorResponse "gimme".toList
          ("Model infeasible: ".toList ++ statusStr OptStatus.infeasible)) := by
  obtain ⟨_, _, _, _, hfba, _, _, _, _, _, _, _, _, _, _, _, _, _, _, _, _, hgimme, _⟩ :=
    c2_endpoints_never_raise
  constructor
  · exact hfba c8Model [] [] none (fun _ => .error "boom".toList) "boom".toList rfl
  · exact hgimme c8Model 3 [] (mkRat 1 4) (mkRat 9 10)
      (fun _ => .ok ⟨.infeasible, 0, []⟩) (fun _ _ _ => .ok ⟨.optimal, 0, []⟩)
      [("R1".toList, 1)] ⟨.infeasible, 0, []⟩
      (by with_unfolding_all decide) rfl (by decide)
